import Mathlib

/-!
# Dynamic PDF Template Generator: path resolver and page compositor

A shallow embedding of `resolvePath` and `generatePdfFromTemplate` from
`src/App.jsx`, with the properties stated about them.

* JavaScript strings are sequences of UTF-16 code units (`JsStr`).
* JavaScript values are the JSON-shaped values plus `undefined` (`JsVal`);
  numbers are rationals, which cover every finite JavaScript number.
* An operation that can throw returns `Except JsError _`.
* The jsPDF document is the sequence of calls made on it (`PdfOp`); the page
  size, `toUpperCase` and the printing of numbers come from the host (`Host`);
  lengths are rationals.
-/

namespace PdfTemplate

/-! ## JavaScript strings -/

/-- A JavaScript string: its UTF-16 code units. -/
abbrev JsStr := List Nat

/-- The code units of one Unicode scalar value (a surrogate pair above the BMP). -/
def charUnits (c : Char) : List Nat :=
  if c.toNat < 65536 then [c.toNat]
  else [55296 + (c.toNat - 65536) / 1024, 56320 + (c.toNat - 65536) % 1024]

/-- The JavaScript string written as the given literal. -/
def js (s : String) : JsStr :=
  s.toList.flatMap charUnits

/-- Code units removed by `String.prototype.trim`: the ECMAScript WhiteSpace and
LineTerminator productions. -/
def isTrimUnit (c : Nat) : Bool :=
  c == 9 || c == 10 || c == 11 || c == 12 || c == 13 || c == 32 || c == 160 ||
  c == 5760 || (8192 ≤ c && c ≤ 8202) || c == 8232 || c == 8233 || c == 8239 ||
  c == 8287 || c == 12288 || c == 65279

/-- Model of `s.trim()`. -/
def trim (s : JsStr) : JsStr :=
  ((s.dropWhile isTrimUnit).reverse.dropWhile isTrimUnit).reverse

/-- Model of `s.split(".")`: the pieces between the dots, always at least one piece. -/
def splitDot : JsStr → List JsStr
  | [] => [[]]
  | c :: cs =>
    if c = 46 then [] :: splitDot cs
    else
      match splitDot cs with
      | [] => [[c]]
      | seg :: rest => (c :: seg) :: rest

/-- Model of `path.split(".").map((p) => p.trim()).filter(Boolean)`: a string is
truthy exactly when it is not empty. -/
def pathParts (path : JsStr) : List JsStr :=
  ((splitDot path).map trim).filter (fun p => !p.isEmpty)

/-! ## JavaScript values -/

/-- A JavaScript value of the kind a data document holds, plus `undefined`.
A number is a rational: every finite JavaScript number is one, and the two
zeros, which truthiness, `String` and `===` do not tell apart, are one. An object
is the list of its own enumerable entries; the first entry of a key is its
property. -/
inductive JsVal where
  | undefined : JsVal
  | null : JsVal
  | bool (b : Bool) : JsVal
  | num (n : ℚ) : JsVal
  | str (s : JsStr) : JsVal
  | arr (items : List JsVal) : JsVal
  | obj (entries : List (JsStr × JsVal)) : JsVal

/-- The error a JavaScript operation can throw here. -/
inductive JsError where
  | typeError : JsError

/-- Truthiness of a value (`ToBoolean`). -/
def truthy : JsVal → Bool
  | .undefined => false
  | .null => false
  | .bool b => b
  | .num n => n != 0
  | .str s => !s.isEmpty
  | .arr _ => true
  | .obj _ => true

/-- The value of the first entry with the given key. -/
def lookupKey (key : JsStr) : List (JsStr × JsVal) → Option JsVal
  | [] => none
  | (k, v) :: rest => if k = key then some v else lookupKey key rest

/-- The property key of array index `i`: its decimal digits. -/
def indexKey (i : Nat) : JsStr :=
  (Nat.toDigits 10 i).map Char.toNat

/-- The index below `n` whose property key is `key`, if any. -/
def findIndexKey (key : JsStr) (n : Nat) : Option Nat :=
  (List.range n).find? (fun i => indexKey i = key)

/-- The own property `key` of the object that `ToObject` makes of a value: an
object has its entries; an array has its indices and `length`; a string wrapper
has its code-unit indices and `length`; number and boolean wrappers have none. -/
def ownProperty (v : JsVal) (key : JsStr) : Option JsVal :=
  match v with
  | .obj entries => lookupKey key entries
  | .arr items =>
    if key = js "length" then some (.num items.length)
    else (findIndexKey key items.length).bind (fun i => items.get? i)
  | .str s =>
    if key = js "length" then some (.num s.length)
    else (findIndexKey key s.length).bind (fun i => (s.get? i).map (fun c => .str [c]))
  | _ => none

/-- Model of `Object.prototype.hasOwnProperty.call(o, key)`: throws a TypeError on
`null` and `undefined`. -/
def hasOwnProperty (o : JsVal) (key : JsStr) : Except JsError Bool :=
  match o with
  | .undefined => .error .typeError
  | .null => .error .typeError
  | _ => .ok (ownProperty o key).isSome

/-- Model of `o[key]` for a key that `o` owns (the only reads the resolver makes):
throws a TypeError on `null` and `undefined`. -/
def getProperty (o : JsVal) (key : JsStr) : Except JsError JsVal :=
  match o with
  | .undefined => .error .typeError
  | .null => .error .typeError
  | _ => .ok ((ownProperty o key).getD .undefined)

/-- Model of `a ?? b`. -/
def nullish (a b : JsVal) : JsVal :=
  match a with
  | .undefined => b
  | .null => b
  | _ => a

/-! ## resolvePath -/

/-- The `for (const p of parts)` loop of `resolvePath` followed by its final
`return current ?? defaultValue`. -/
def resolveLoop (defaultValue : JsVal) : JsVal → List JsStr → Except JsError JsVal
  | current, [] => .ok (nullish current defaultValue)
  | current, p :: rest =>
    if truthy current then
      match hasOwnProperty current p with
      | .error e => .error e
      | .ok true =>
        match getProperty current p with
        | .error e => .error e
        | .ok next => resolveLoop defaultValue next rest
      | .ok false => .ok defaultValue
    else .ok defaultValue

/-- The value of the parameter `defaultValue = ""` for a given third argument:
an `undefined` argument is replaced by `""`. -/
def paramDefault (fallback : JsVal) : JsVal :=
  match fallback with
  | .undefined => .str []
  | v => v

/-- Model of `resolvePath(obj, path, defaultValue = "")`; `!path` holds of a
string exactly when it is empty. -/
def resolvePath (obj : JsVal) (path : JsStr) (fallback : JsVal) : Except JsError JsVal :=
  if path.isEmpty then .ok (paramDefault fallback)
  else resolveLoop (paramDefault fallback) obj (pathParts path)

/-! ## The walks the properties speak of -/

/-- The walk of the specification: from a node, descend by own keys, through
mappings only. -/
def walkMappings : JsVal → List JsStr → Option JsVal
  | v, [] => some v
  | .obj entries, s :: rest =>
    match lookupKey s entries with
    | some child => walkMappings child rest
    | none => none
  | _, _ :: _ => none

/-- The walk by own keys of any node (mapping, array or string wrapper). -/
def walkOwn : JsVal → List JsStr → Option JsVal
  | v, [] => some v
  | v, s :: rest =>
    match ownProperty v s with
    | some child => walkOwn child rest
    | none => none

/-- The nodes the specification calls mappings. -/
def isMapping : JsVal → Bool
  | .obj _ => true
  | _ => false

/-- A segment that a non-mapping node does not offer: any segment for a number,
a boolean, `null`, `undefined` or the empty string; for an array or a non-empty
string, a segment that is neither `length` nor the key of an index in range. -/
def segmentNotOwned (node : JsVal) (s : JsStr) : Bool :=
  match node with
  | .obj _ => false
  | .arr items =>
    s != js "length" && (List.range items.length).all (fun i => indexKey i != s)
  | .str u =>
    u.isEmpty || (s != js "length" && (List.range u.length).all (fun i => indexKey i != s))
  | _ => true

/-! ## The host -/

/-- What the generator takes from its host: the page size that
`doc.internal.pageSize` reports, `String.prototype.toUpperCase`, and the string
that `String` gives for a number. -/
structure Host where
  pageWidth : ℚ
  pageHeight : ℚ
  toUpperCase : JsStr → JsStr
  numberToString : ℚ → JsStr

/-! ## Display strings -/

mutual
/-- Model of `String(v)`. For an object, `String` calls its `toString`: the
inherited one gives `[object Object]`; an own entry `toString` of a data
document is not callable, the inherited `valueOf` returns the object itself, and
`String` throws a TypeError. For an array, `String` joins the elements. -/
def jsToString (host : Host) : JsVal → Except JsError JsStr
  | .undefined => .ok (js "undefined")
  | .null => .ok (js "null")
  | .bool b => .ok (if b then js "true" else js "false")
  | .num n => .ok (host.numberToString n)
  | .str s => .ok s
  | .arr items => joinItems host items
  | .obj entries =>
    match lookupKey (js "toString") entries with
    | some _ => .error .typeError
    | none => .ok (js "[object Object]")
/-- Model of `Array.prototype.join` with the separator `,`, the elements being
converted from left to right. -/
def joinItems (host : Host) : List JsVal → Except JsError JsStr
  | [] => .ok []
  | [v] => itemString host v
  | v :: w :: rest =>
    match itemString host v with
    | .error e => .error e
    | .ok a =>
      match joinItems host (w :: rest) with
      | .error e => .error e
      | .ok b => .ok (a ++ 44 :: b)
/-- The contribution of one array element to the joined string: the empty
string for `null` and `undefined`, `String` of the element otherwise. -/
def itemString (host : Host) : JsVal → Except JsError JsStr
  | .undefined => .ok []
  | .null => .ok []
  | .bool b => .ok (if b then js "true" else js "false")
  | .num n => .ok (host.numberToString n)
  | .str s => .ok s
  | .arr items => joinItems host items
  | .obj entries =>
    match lookupKey (js "toString") entries with
    | some _ => .error .typeError
    | none => .ok (js "[object Object]")
end

/-- Model of `a || b` on strings: `a` unless it is empty (a missing string
property behaves like the empty one). -/
def strOr (a b : JsStr) : JsStr :=
  if a.isEmpty then b else a

/-! ## The jsPDF document -/

/-- A call made on the jsPDF document. The optional last argument of `text` is
its `align` option. -/
inductive PdfOp where
  | setFillColor (r g b : Nat) : PdfOp
  | roundedRect (x y w h rx ry : ℚ) (style : JsStr) : PdfOp
  | setFont (fontName fontStyle : JsStr) : PdfOp
  | setFontSize (size : Nat) : PdfOp
  | setTextColor (r g b : Nat) : PdfOp
  | text (s : JsStr) (x y : ℚ) (align : Option JsStr) : PdfOp
  | setDrawColor (r g b : Nat) : PdfOp
  | line (x1 y1 x2 y2 : ℚ) : PdfOp
  | addPage : PdfOp
  | save (filename : JsStr) : PdfOp
  deriving DecidableEq

/-- A field definition of a template. The generator reads a missing `keyLabel`,
`mapping` or `align` exactly as it reads the empty string; a missing
`defaultValue` is `undefined`. -/
structure Field where
  keyLabel : JsStr
  mapping : JsStr
  defaultValue : JsVal
  align : JsStr

/-- A template; a field group is `none` when the property is missing. The
generator reads a missing `name` or `type` exactly as it reads the empty string. -/
structure Template where
  name : JsStr
  type : JsStr
  headerFields : Option (List Field)
  bodyFields : Option (List Field)
  footerFields : Option (List Field)

/-- The mutable state of one `generatePdfFromTemplate` call: the calls made on
`doc` so far and the cursor `y`. -/
structure RenderState where
  ops : List PdfOp
  y : ℚ

def marginX : ℚ := 18
def marginY : ℚ := 20
def bottomMargin : ℚ := 20

/-- Model of the closure `ensureSpace(extra)`. -/
def ensureSpace (host : Host) (extra : ℚ) (st : RenderState) : RenderState :=
  if st.y + extra > host.pageHeight - bottomMargin then
    { ops := st.ops ++ [PdfOp.addPage], y := marginY }
  else st

/-- Model of the closure `writeFieldLine(label, value, align)`. The label is
drawn first; each of the three branches then evaluates `String(safeValue)`,
which can throw, before it draws the value. -/
def writeFieldLine (host : Host) (st : RenderState) (label : JsStr) (value : JsVal)
    (align : JsStr) : Except JsError RenderState :=
  let st1 := ensureSpace host 8 st
  let safeLabel : JsStr := if label.isEmpty then [] else label
  let safeValue := nullish value (.str [])
  let labelOps :=
    [PdfOp.setFont (js "helvetica") (js "bold"),
     PdfOp.setFontSize 9,
     PdfOp.text (safeLabel ++ js ":") marginX st1.y none,
     PdfOp.setFont (js "helvetica") (js "normal")]
  match jsToString host safeValue with
  | .error e => .error e
  | .ok shown =>
    let valueOp :=
      if align = js "right" then
        PdfOp.text shown (host.pageWidth - marginX) st1.y (some (js "right"))
      else if align = js "center" then
        PdfOp.text shown (host.pageWidth / 2) st1.y (some (js "center"))
      else
        PdfOp.text shown (marginX + 40) st1.y none
    .ok { ops := st1.ops ++ labelOps ++ [valueOp], y := st1.y + 7 }

/-- Model of `sections.forEach((f) => ...)`: an exception leaves the loop. -/
def forEachField (host : Host) (data : JsVal) :
    RenderState → List Field → Except JsError RenderState
  | st, [] => .ok st
  | st, f :: rest =>
    match resolvePath data f.mapping f.defaultValue with
    | .error e => .error e
    | .ok value =>
      match writeFieldLine host st (strOr f.keyLabel []) value (strOr f.align (js "left")) with
      | .error e => .error e
      | .ok next => forEachField host data next rest

/-- The flat field list `sections`. -/
def sections (template : Template) : List Field :=
  template.headerFields.getD [] ++ template.bodyFields.getD [] ++
    template.footerFields.getD []

/-- The subtitle text. -/
def subtitle (host : Host) (template : Template) : JsStr :=
  let typeLabel := strOr template.type (js "generic")
  let typeLabel := host.toUpperCase (typeLabel.take 1) ++ typeLabel.drop 1
  typeLabel ++ js " template generated from JSON mapping"

/-- The calls made before the field lines: title band, subtitle and divider. -/
def preamble (host : Host) (template : Template) : RenderState :=
  let y : ℚ := marginY
  let band :=
    [PdfOp.setFillColor 37 99 235,
     PdfOp.roundedRect marginX y (host.pageWidth - marginX * 2) 16 3 3 (js "F"),
     PdfOp.setFont (js "helvetica") (js "bold"),
     PdfOp.setFontSize 12,
     PdfOp.setTextColor 255 255 255,
     PdfOp.text (strOr template.name (js "Document")) (host.pageWidth / 2) (y + 10)
       (some (js "center"))]
  let y := y + 24
  let sub :=
    [PdfOp.setFontSize 9,
     PdfOp.setFont (js "helvetica") (js "normal"),
     PdfOp.setTextColor 120 120 120,
     PdfOp.text (subtitle host template) marginX y none]
  let y := y + 8
  let divider :=
    [PdfOp.setDrawColor 180 180 180,
     PdfOp.line marginX y (host.pageWidth - marginX) y]
  let y := y + 10
  { ops := band ++ sub ++ divider ++ [PdfOp.setTextColor 0 0 0], y := y }

/-- Model of `generatePdfFromTemplate(template, data)`: the calls made on the
jsPDF document, in order, the last one being `doc.save`; when a field line
throws, the exception leaves the function and nothing is saved. -/
def generatePdfFromTemplate (host : Host) (template : Template) (data : JsVal) :
    Except JsError (List PdfOp) :=
  match forEachField host data (preamble host template) (sections template) with
  | .error e => .error e
  | .ok st => .ok (st.ops ++ [PdfOp.save (strOr template.name (js "document") ++ js ".pdf")])

/-! ## Reading a document back from its calls -/

/-- A text as placed on a page. -/
structure PlacedText where
  page : Nat
  str : JsStr
  x : ℚ
  y : ℚ
  align : Option JsStr
  deriving DecidableEq

/-- The texts drawn by a sequence of calls, in call order, each with the page it
lands on; `page` is the current page when the sequence starts. -/
def textsFrom : Nat → List PdfOp → List PlacedText
  | _, [] => []
  | page, .addPage :: rest => textsFrom (page + 1) rest
  | page, .text s x y a :: rest => ⟨page, s, x, y, a⟩ :: textsFrom page rest
  | page, _ :: rest => textsFrom page rest

/-- The texts of a document: a new jsPDF document starts on page 1. -/
def texts (ops : List PdfOp) : List PlacedText :=
  textsFrom 1 ops

/-- The rectangles and lines drawn by a sequence of calls, each with its page. -/
def shapesFrom : Nat → List PdfOp → List (Nat × PdfOp)
  | _, [] => []
  | page, .addPage :: rest => shapesFrom (page + 1) rest
  | page, .roundedRect x y w h rx ry st :: rest =>
    (page, .roundedRect x y w h rx ry st) :: shapesFrom page rest
  | page, .line x1 y1 x2 y2 :: rest => (page, .line x1 y1 x2 y2) :: shapesFrom page rest
  | page, _ :: rest => shapesFrom page rest

/-- The rectangles and lines of a document. -/
def shapes (ops : List PdfOp) : List (Nat × PdfOp) :=
  shapesFrom 1 ops

/-- Number of `addPage` calls. -/
def addedPages : List PdfOp → Nat
  | [] => 0
  | .addPage :: rest => addedPages rest + 1
  | _ :: rest => addedPages rest

/-- Number of pages of a document. -/
def pageCount (ops : List PdfOp) : Nat :=
  1 + addedPages ops

/-- The file name the document is saved under, if it is saved. -/
def savedAs : List PdfOp → Option JsStr
  | [] => none
  | .save name :: _ => some name
  | _ :: rest => savedAs rest

/-- A field line: its label text and its value text. -/
structure FieldLine where
  label : PlacedText
  value : PlacedText

/-- Consecutive texts taken two by two. -/
def pairLines : List PlacedText → List FieldLine
  | l :: v :: rest => ⟨l, v⟩ :: pairLines rest
  | _ => []

/-- The field lines of a document: the texts after the title and the subtitle. -/
def fieldLines (ops : List PdfOp) : List FieldLine :=
  pairLines ((texts ops).drop 2)

/-- Lines ordered by increasing page, then increasing height on the page. -/
def lineBefore (a b : FieldLine) : Prop :=
  a.label.page < b.label.page ∨ (a.label.page = b.label.page ∧ a.label.y < b.label.y)

instance (a b : FieldLine) : Decidable (lineBefore a b) := by
  unfold lineBefore
  infer_instance

/-- An ASCII `toUpperCase`, enough for the template types `salary`, `bill` and
`generic` of the application. -/
def asciiUpper (s : JsStr) : JsStr :=
  s.map (fun c => if 97 ≤ c ∧ c ≤ 122 then c - 32 else c)

/-- The number printing of the sample host: the decimal digits of the numerator,
with a leading minus sign when negative. It agrees with `String` on the integers
of magnitude below `2 ^ 53`, the only numbers of the sample documents; the
general properties below hold for every host and do not use it. -/
def decimalString (q : ℚ) : JsStr :=
  if q < 0 then 45 :: indexKey q.num.natAbs else indexKey q.num.natAbs

/-- A sample host: the nominal A4 page, 210 by 297 millimetres, ASCII upper-casing
and decimal printing of integers. -/
def a4Host : Host :=
  { pageWidth := 210, pageHeight := 297, toUpperCase := asciiUpper,
    numberToString := decimalString }

/-! ## The expected layout -/

/-- What a field shows: `String(value ?? "")` for the value that `resolvePath`
returns for the field, or the exception thrown on the way. -/
def displayValue (host : Host) (data : JsVal) (f : Field) : Except JsError JsStr :=
  match resolvePath data f.mapping f.defaultValue with
  | .error e => .error e
  | .ok value => jsToString host (nullish value (.str []))

/-- The string of `displayValue` when there is one. -/
def shownValue (host : Host) (data : JsVal) (f : Field) : JsStr :=
  match displayValue host data f with
  | .ok s => s
  | .error _ => []

/-- The two texts of the line of field `f` written on `page` at height `y`. -/
def lineTexts (host : Host) (data : JsVal) (f : Field) (place : Nat × ℚ) : FieldLine :=
  { label := ⟨place.1, f.keyLabel ++ js ":", 18, place.2, none⟩,
    value :=
      if f.align = js "right" then
        ⟨place.1, shownValue host data f, host.pageWidth - 18, place.2, some (js "right")⟩
      else if f.align = js "center" then
        ⟨place.1, shownValue host data f, host.pageWidth / 2, place.2, some (js "center")⟩
      else
        ⟨place.1, shownValue host data f, 18 + 40, place.2, none⟩ }

/-- Page and height of a line written when the cursor stands on `page` at `y`. -/
def linePlace (host : Host) (page : Nat) (y : ℚ) : Nat × ℚ :=
  if y + 8 > host.pageHeight - 20 then (page + 1, 20) else (page, y)

/-- Pages and heights of `n` consecutive lines, the cursor starting on `page` at `y`. -/
def flowPlaces (host : Host) : Nat → ℚ → Nat → List (Nat × ℚ)
  | _, _, 0 => []
  | page, y, n + 1 =>
    linePlace host page y ::
      flowPlaces host (linePlace host page y).1 ((linePlace host page y).2 + 7) n

/-- The page the cursor stands on after `n` lines. -/
def flowPage (host : Host) : Nat → ℚ → Nat → Nat
  | page, _, 0 => page
  | page, y, n + 1 =>
    flowPage host (linePlace host page y).1 ((linePlace host page y).2 + 7) n

/-- The texts of a list of lines, label before value. -/
def lineTextList (ls : List FieldLine) : List PlacedText :=
  ls.flatMap (fun l => [l.label, l.value])

/-! ## Sample inputs -/

/-- The field `Name` of the end-to-end example. -/
def nameField : Field :=
  { keyLabel := js "Name", mapping := js "user.name", defaultValue := .str (js "-"),
    align := js "left" }

/-- The field `Total` of the end-to-end example. -/
def totalField : Field :=
  { keyLabel := js "Total", mapping := js "user.payDetail.total_salary_amount",
    defaultValue := .str (js "0"), align := js "right" }

/-- The `Payslip` template of the end-to-end example. -/
def payslipTemplate : Template :=
  { name := js "Payslip", type := js "salary", headerFields := none,
    bodyFields := some [nameField, totalField], footerFields := none }

/-- The data document of the end-to-end example. -/
def aliceRecord : JsVal :=
  .obj [(js "user", .obj [(js "name", .str (js "Alice Johnson")),
    (js "payDetail", .obj [(js "total_salary_amount", .num 75000)])])]

/-- A template with `n` copies of one field in its body. -/
def repeatedTemplate (n : Nat) : Template :=
  { name := js "Payslip", type := js "salary", headerFields := none,
    bodyFields := some (List.replicate n nameField), footerFields := some [] }

/-- A template with one field in each group. -/
def groupedTemplate : Template :=
  { name := js "Payslip", type := js "salary", headerFields := some [totalField],
    bodyFields := some [nameField], footerFields := some [totalField] }

/-- A template without a name. -/
def unnamedTemplate : Template :=
  { name := [], type := js "generic", headerFields := none,
    bodyFields := some [nameField], footerFields := none }

/-- A data document whose `user.name` is an object with an own entry `toString`. -/
def shadowedRecord : JsVal :=
  .obj [(js "user", .obj [(js "name", .obj [(js "toString", .str (js "x"))])])]

/-! ## Continuing a walk -/

/-- Resolving `p` from `D` amounts to going on from `child` with the segments
`rest`: when no segment is left the result is `child ?? fb`, and it is the
result of resolving from `child` any non-empty path whose segments are `rest`. -/
def ContinuesFrom (D : JsVal) (p : JsStr) (fb child : JsVal) (rest : List JsStr) : Prop :=
  (rest = [] → resolvePath D p fb = .ok (nullish child fb)) ∧
  ∀ q : JsStr, q.isEmpty = false → pathParts q = rest →
    resolvePath D p fb = resolvePath child q fb

/-! ## Lemmas on the resolver -/

theorem pathParts_nil : pathParts [] = [] := by decide

theorem path_nonempty_of_parts {p : JsStr} (h : pathParts p ≠ []) : p.isEmpty = false := by
  cases p with
  | nil => exact absurd pathParts_nil h
  | cons c cs => rfl

theorem resolvePath_eq_loop (D : JsVal) (p : JsStr) (fb : JsVal) (h : p.isEmpty = false) :
    resolvePath D p fb = resolveLoop (paramDefault fb) D (pathParts p) := by
  simp [resolvePath, h]

theorem paramDefault_of_ne {fb : JsVal} (h : fb ≠ .undefined) : paramDefault fb = fb := by
  cases fb <;> first | rfl | exact absurd rfl h

theorem hasOwnProperty_of_truthy {c : JsVal} (h : truthy c = true) (s : JsStr) :
    hasOwnProperty c s = .ok (ownProperty c s).isSome := by
  cases c <;> first | rfl | simp [truthy] at h

theorem getProperty_of_truthy {c : JsVal} (h : truthy c = true) (s : JsStr) :
    getProperty c s = .ok ((ownProperty c s).getD .undefined) := by
  cases c <;> first | rfl | simp [truthy] at h

/-- One turn of the loop: descend when the node is truthy and owns the segment,
give the default otherwise. -/
theorem resolveLoop_cons (dv c : JsVal) (s : JsStr) (rest : List JsStr) :
    resolveLoop dv c (s :: rest) =
      if truthy c then
        match ownProperty c s with
        | some child => resolveLoop dv child rest
        | none => .ok dv
      else .ok dv := by
  by_cases ht : truthy c = true
  · rw [resolveLoop, if_pos ht, if_pos ht, hasOwnProperty_of_truthy ht, getProperty_of_truthy ht]
    cases ownProperty c s <;> rfl
  · rw [resolveLoop, if_neg ht, if_neg ht]

theorem resolveLoop_total (dv : JsVal) (parts : List JsStr) (D : JsVal) :
    ∃ v, resolveLoop dv D parts = .ok v ∧ (v = dv ∨ walkOwn D parts = some v) := by
  induction parts generalizing D with
  | nil =>
    refine ⟨nullish D dv, rfl, ?_⟩
    cases D <;> simp [nullish, walkOwn]
  | cons s rest ih =>
    rw [resolveLoop_cons]
    by_cases ht : truthy D = true
    · rw [if_pos ht]
      cases hown : ownProperty D s with
      | none => exact ⟨dv, rfl, Or.inl rfl⟩
      | some child =>
        obtain ⟨v, hv, hor⟩ := ih child
        refine ⟨v, hv, hor.imp id ?_⟩
        intro hw
        simp [walkOwn, hown, hw]
    · rw [if_neg ht]
      exact ⟨dv, rfl, Or.inl rfl⟩

theorem resolveLoop_walkMappings (dv : JsVal) (parts : List JsStr) (D v : JsVal)
    (h : walkMappings D parts = some v) : resolveLoop dv D parts = .ok (nullish v dv) := by
  induction parts generalizing D with
  | nil =>
    simp [walkMappings] at h
    subst h
    rfl
  | cons s rest ih =>
    cases D with
    | obj entries =>
      rw [resolveLoop_cons]
      simp only [truthy, if_true, ownProperty]
      cases hl : lookupKey s entries with
      | none => simp [walkMappings, hl] at h
      | some child =>
        simp only [walkMappings, hl] at h
        exact ih child h
    | _ => simp [walkMappings] at h

/-- The loop gives the default as soon as the walk reaches a node that is falsy
or does not own the next segment. -/
theorem resolveLoop_stops (dv : JsVal) (pre : List JsStr) (s : JsStr) (rest : List JsStr)
    (D node : JsVal) (hw : walkMappings D pre = some node)
    (hs : truthy node = false ∨ ownProperty node s = none) :
    resolveLoop dv D (pre ++ s :: rest) = .ok dv := by
  induction pre generalizing D with
  | nil =>
    simp [walkMappings] at hw
    subst hw
    rw [List.nil_append, resolveLoop_cons]
    rcases hs with hs | hs
    · simp [hs]
    · simp [hs]
  | cons t pre ih =>
    cases D with
    | obj entries =>
      rw [List.cons_append, resolveLoop_cons]
      simp only [truthy, if_true, ownProperty]
      cases hl : lookupKey t entries with
      | none => simp [walkMappings, hl] at hw
      | some child =>
        simp only [walkMappings, hl] at hw
        exact ih child hw
    | _ => simp [walkMappings] at hw

theorem findIndexKey_none {s : JsStr} {n : Nat}
    (h : (List.range n).all (fun i => indexKey i != s) = true) : findIndexKey s n = none := by
  unfold findIndexKey
  rw [List.find?_eq_none]
  intro i hi
  rw [List.all_eq_true] at h
  simpa using h i hi

theorem ownProperty_none_of_segmentNotOwned {node : JsVal} {s : JsStr}
    (h : segmentNotOwned node s = true) : truthy node = false ∨ ownProperty node s = none := by
  cases node with
  | obj entries => simp [segmentNotOwned] at h
  | arr items =>
    simp only [segmentNotOwned, Bool.and_eq_true] at h
    right
    have h1 : s ≠ js "length" := by simpa using h.1
    simp [ownProperty, h1, findIndexKey_none h.2]
  | str u =>
    simp only [segmentNotOwned, Bool.or_eq_true, Bool.and_eq_true] at h
    rcases h with h | h
    · left
      simp [truthy, h]
    · right
      have h1 : s ≠ js "length" := by simpa using h.1
      simp [ownProperty, h1, findIndexKey_none h.2]
  | _ => right; rfl

/-! ## Index keys -/

/-- The number a string of decimal digits writes. -/
theorem digitChar_toNat (d : Nat) (h : d < 10) : (Nat.digitChar d).toNat - 48 = d := by
  interval_cases d <;> rfl

theorem foldl_digits_acc (l : List Char) (a : Nat) :
    l.foldl (fun acc c => 10 * acc + (c.toNat - 48)) a =
      a * 10 ^ l.length + l.foldl (fun acc c => 10 * acc + (c.toNat - 48)) 0 := by
  induction l generalizing a with
  | nil => simp
  | cons c l ih =>
    simp only [List.foldl_cons, List.length_cons]
    rw [ih (10 * a + (c.toNat - 48)), ih (10 * 0 + (c.toNat - 48))]
    ring

theorem toDigitsCore_value (fuel n : Nat) (ds : List Char) (h : n < fuel) :
    (Nat.toDigitsCore 10 fuel n ds).foldl (fun acc c => 10 * acc + (c.toNat - 48)) 0 =
      n * 10 ^ ds.length + ds.foldl (fun acc c => 10 * acc + (c.toNat - 48)) 0 := by
  induction fuel generalizing n ds with
  | zero => omega
  | succ fuel ih =>
    rw [Nat.toDigitsCore]
    have hd := digitChar_toNat (n % 10) (Nat.mod_lt n (by decide))
    by_cases hq : n / 10 = 0
    · simp only [hq, if_true, List.foldl_cons]
      rw [foldl_digits_acc, hd]
      have : n % 10 = n := Nat.mod_eq_of_lt (by omega)
      rw [this]
      ring
    · simp only [hq, if_false]
      rw [ih (n / 10) _ (by omega)]
      simp only [List.foldl_cons, List.length_cons]
      rw [foldl_digits_acc _ (10 * 0 + _), hd]
      have := Nat.div_add_mod n 10
      calc n / 10 * 10 ^ (ds.length + 1) +
            ((10 * 0 + n % 10) * 10 ^ ds.length +
              ds.foldl (fun acc c => 10 * acc + (c.toNat - 48)) 0)
          = (10 * (n / 10) + n % 10) * 10 ^ ds.length +
              ds.foldl (fun acc c => 10 * acc + (c.toNat - 48)) 0 := by ring
        _ = n * 10 ^ ds.length + ds.foldl (fun acc c => 10 * acc + (c.toNat - 48)) 0 := by
            rw [this]

/-- Reading the decimal key of an index gives the index back. -/
theorem indexKey_value (i : Nat) :
    (indexKey i).foldl (fun acc c => 10 * acc + (c - 48)) 0 = i := by
  have h := toDigitsCore_value (i + 1) i [] (Nat.lt_succ_self i)
  simp only [List.length_nil, pow_zero, mul_one, List.foldl_nil, add_zero] at h
  rw [indexKey, Nat.toDigits, List.foldl_map]
  exact h

theorem indexKey_injective {i j : Nat} (h : indexKey i = indexKey j) : i = j := by
  rw [← indexKey_value i, ← indexKey_value j, h]

theorem indexKey_ne_length (i : Nat) : indexKey i ≠ js "length" := by
  intro h
  have hv := indexKey_value i
  rw [h] at hv
  have hi : i = 6598236 := by
    rw [← hv]
    decide
  rw [hi] at h
  exact absurd h (by decide)

/-! ## Own keys of arrays and strings -/

theorem find?_range_unique (p : Nat → Bool) (i n : Nat) (hi : i < n) (hp : p i = true)
    (huniq : ∀ j, p j = true → j = i) : (List.range n).find? p = some i := by
  induction n with
  | zero => omega
  | succ n ih =>
    rw [List.range_succ, List.find?_append]
    by_cases hlt : i < n
    · rw [ih hlt]
      rfl
    · have hin : i = n := by omega
      have hnone : (List.range n).find? p = none := by
        rw [List.find?_eq_none]
        intro j hj hpj
        have := huniq j hpj
        rw [List.mem_range] at hj
        omega
      rw [hnone, ← hin]
      simp [hp]

theorem findIndexKey_indexKey (i n : Nat) (hi : i < n) :
    findIndexKey (indexKey i) n = some i := by
  unfold findIndexKey
  apply find?_range_unique _ i n hi
  · simp
  · intro j hj
    exact indexKey_injective (by simpa using hj)

theorem ownProperty_arr_length (items : List JsVal) :
    ownProperty (.arr items) (js "length") = some (.num items.length) := by
  simp [ownProperty]

theorem ownProperty_arr_index (items : List JsVal) (i : Nat) (child : JsVal)
    (h : items.get? i = some child) : ownProperty (.arr items) (indexKey i) = some child := by
  have hi : i < items.length := by
    by_contra hc
    rw [List.get?_eq_none.mpr (by omega)] at h
    exact absurd h (by simp)
  rw [List.get?_eq_getElem?] at h
  simp [ownProperty, indexKey_ne_length, findIndexKey_indexKey i _ hi, h]

theorem ownProperty_str_length (u : JsStr) :
    ownProperty (.str u) (js "length") = some (.num u.length) := by
  simp [ownProperty]

theorem ownProperty_str_index (u : JsStr) (i c : Nat) (h : u.get? i = some c) :
    ownProperty (.str u) (indexKey i) = some (.str [c]) := by
  have hi : i < u.length := by
    by_contra hc
    rw [List.get?_eq_none.mpr (by omega)] at h
    exact absurd h (by simp)
  rw [List.get?_eq_getElem?] at h
  simp [ownProperty, indexKey_ne_length, findIndexKey_indexKey i _ hi, h]

/-- A falsy node owns nothing but the `length` of the empty string. -/
theorem ownProperty_of_falsy {D child : JsVal} {t : JsStr} (ht : truthy D = false)
    (h : ownProperty D t = some child) : child = .num 0 := by
  cases D with
  | str u =>
    have hu : u = [] := by
      cases u with
      | nil => rfl
      | cons c cs => simp [truthy] at ht
    subst hu
    by_cases hk : t = js "length"
    · simp [ownProperty, hk] at h
      exact h.symm
    · simp [ownProperty, hk, findIndexKey] at h
  | obj entries => simp [truthy] at ht
  | arr items => simp [truthy] at ht
  | _ => simp [ownProperty] at h

/-- The loop follows the walk by own keys up to the node it reaches, as long as
a segment is left to consume there. -/
theorem resolveLoop_reach (dv : JsVal) (pre : List JsStr) (s : JsStr) (rest : List JsStr)
    (D node : JsVal) (hw : walkOwn D pre = some node) :
    resolveLoop dv D (pre ++ s :: rest) = resolveLoop dv node (s :: rest) := by
  induction pre generalizing D with
  | nil =>
    simp [walkOwn] at hw
    subst hw
    rfl
  | cons t pre ih =>
    rw [walkOwn] at hw
    cases hown : ownProperty D t with
    | none => simp [hown] at hw
    | some child =>
      simp only [hown] at hw
      rw [List.cons_append, resolveLoop_cons]
      by_cases ht : truthy D = true
      · simp only [ht, if_true, hown]
        exact ih child hw
      · have hf : truthy D = false := by simpa using ht
        have hc := ownProperty_of_falsy hf hown
        subst hc
        simp only [hf, Bool.false_eq_true, if_false]
        cases pre with
        | nil =>
          simp [walkOwn] at hw
          subst hw
          rw [resolveLoop_cons]
          simp [truthy]
        | cons t2 pre2 =>
          simp [walkOwn, ownProperty] at hw

/-- One step of the loop from a truthy node that owns the segment. -/
theorem resolveLoop_step (dv node child : JsVal) (s : JsStr) (rest : List JsStr)
    (ht : truthy node = true) (hown : ownProperty node s = some child) :
    resolveLoop dv node (s :: rest) = resolveLoop dv child rest := by
  rw [resolveLoop_cons]
  simp [ht, hown]

/-- Going on from an owned child of the node that the walk reaches. -/
theorem continuesFrom_of_step (D fb : JsVal) (p : JsStr) (pre : List JsStr) (s : JsStr)
    (rest : List JsStr) (node child : JsVal) (hfb : fb ≠ .undefined)
    (hsplit : pathParts p = pre ++ s :: rest) (hwalk : walkOwn D pre = some node)
    (ht : truthy node = true) (hown : ownProperty node s = some child) :
    ContinuesFrom D p fb child rest := by
  have hparts : pathParts p ≠ [] := by simp [hsplit]
  have hmain : resolvePath D p fb = resolveLoop fb child rest := by
    rw [resolvePath_eq_loop D p fb (path_nonempty_of_parts hparts), paramDefault_of_ne hfb,
      hsplit, resolveLoop_reach fb pre s rest D node hwalk,
      resolveLoop_step fb node child s rest ht hown]
  constructor
  · intro hrest
    rw [hmain, hrest]
    rfl
  · intro q hq hqparts
    rw [hmain, resolvePath_eq_loop child q fb hq, paramDefault_of_ne hfb, hqparts]

/-! ## Path normalisation -/

theorem splitDot_cons_dot (cs : JsStr) : splitDot (46 :: cs) = [] :: splitDot cs := by
  simp [splitDot]

theorem splitDot_cons_other {c : Nat} {cs seg : JsStr} {rest : List JsStr} (hc : c ≠ 46)
    (hx : splitDot cs = seg :: rest) : splitDot (c :: cs) = (c :: seg) :: rest := by
  simp [splitDot, hc, hx]

theorem splitDot_exists_cons (s : JsStr) : ∃ seg rest, splitDot s = seg :: rest := by
  induction s with
  | nil => exact ⟨[], [], rfl⟩
  | cons c cs ih =>
    obtain ⟨seg, rest, hx⟩ := ih
    by_cases hc : c = 46
    · exact ⟨[], splitDot cs, by rw [hc, splitDot_cons_dot]⟩
    · exact ⟨c :: seg, rest, splitDot_cons_other hc hx⟩

theorem splitDot_append_dot (x y : JsStr) :
    splitDot (x ++ 46 :: y) = splitDot x ++ splitDot y := by
  induction x with
  | nil => rw [List.nil_append, splitDot_cons_dot]; rfl
  | cons c x ih =>
    by_cases hc : c = 46
    · rw [hc, List.cons_append, splitDot_cons_dot, splitDot_cons_dot, ih, List.cons_append]
    · obtain ⟨seg, rest, hx⟩ := splitDot_exists_cons x
      rw [hx, List.cons_append] at ih
      rw [List.cons_append, splitDot_cons_other hc ih, splitDot_cons_other hc hx,
        List.cons_append]

theorem pathParts_append_dot (x y : JsStr) :
    pathParts (x ++ 46 :: y) = pathParts x ++ pathParts y := by
  simp [pathParts, splitDot_append_dot]

theorem trim_cons_blank (w : Nat) (s : JsStr) (hw : isTrimUnit w = true) :
    trim (w :: s) = trim s := by
  simp [trim, List.dropWhile, hw]

theorem trim_append_blank (w : Nat) (s : JsStr) (hw : isTrimUnit w = true) :
    trim (s ++ [w]) = trim s := by
  induction s with
  | nil => simp [trim, List.dropWhile, hw]
  | cons c s ih =>
    by_cases hc : isTrimUnit c = true
    · rw [List.cons_append, trim_cons_blank c _ hc, trim_cons_blank c _ hc, ih]
    · simp [trim, List.dropWhile, hc, hw]

/-- Appending a blank changes the pieces of a split only by a trailing blank. -/
theorem splitDot_append_blank (w : Nat) (hw : isTrimUnit w = true) (s : JsStr) :
    List.Forall₂ (fun a b : JsStr => a = b ∨ a = b ++ [w]) (splitDot (s ++ [w])) (splitDot s) := by
  have hw46 : w ≠ 46 := by
    intro h
    rw [h] at hw
    exact absurd hw (by decide)
  induction s with
  | nil =>
    rw [List.nil_append, splitDot_cons_other hw46 (show splitDot [] = [] :: [] from rfl)]
    exact List.Forall₂.cons (Or.inr rfl) List.Forall₂.nil
  | cons c s ih =>
    by_cases hc : c = 46
    · rw [hc, List.cons_append, splitDot_cons_dot, splitDot_cons_dot]
      exact List.Forall₂.cons (Or.inl rfl) ih
    · obtain ⟨seg, rest, hx⟩ := splitDot_exists_cons s
      obtain ⟨seg2, rest2, hx2⟩ := splitDot_exists_cons (s ++ [w])
      rw [hx, hx2, List.forall₂_cons] at ih
      rw [List.cons_append, splitDot_cons_other hc hx, splitDot_cons_other hc hx2]
      refine List.Forall₂.cons ?_ ih.2
      rcases ih.1 with h | h
      · left; rw [h]
      · right; rw [h]; rfl

theorem map_trim_of_forall₂ (w : Nat) (hw : isTrimUnit w = true) (l1 l2 : List JsStr)
    (h : List.Forall₂ (fun a b : JsStr => a = b ∨ a = b ++ [w]) l1 l2) :
    l1.map trim = l2.map trim := by
  induction h with
  | nil => rfl
  | cons hab _ ih =>
    rcases hab with hab | hab
    · simp [hab, ih]
    · simp [hab, ih, trim_append_blank w _ hw]

theorem pathParts_append_blank (w : Nat) (hw : isTrimUnit w = true) (s : JsStr) :
    pathParts (s ++ [w]) = pathParts s := by
  simp only [pathParts, map_trim_of_forall₂ w hw _ _ (splitDot_append_blank w hw s)]

theorem pathParts_cons_blank (w : Nat) (hw : isTrimUnit w = true) (s : JsStr) :
    pathParts (w :: s) = pathParts s := by
  have hw46 : w ≠ 46 := by
    intro h
    rw [h] at hw
    exact absurd hw (by decide)
  obtain ⟨seg, rest, hx⟩ := splitDot_exists_cons s
  simp only [pathParts, splitDot_cons_other hw46 hx, hx, List.map_cons,
    trim_cons_blank w seg hw]

/-- Two non-empty paths with the same segment sequence resolve alike. -/
theorem resolvePath_congr_parts (D fb : JsVal) (p q : JsStr) (hp : p.isEmpty = false)
    (hq : q.isEmpty = false) (h : pathParts p = pathParts q) :
    resolvePath D p fb = resolvePath D q fb := by
  rw [resolvePath_eq_loop D p fb hp, resolvePath_eq_loop D q fb hq, h]

/-- The four spellings `a.b`, ` a . b `, `a..b` and `a.b.` resolve alike, for
all strings `a` and `b`. -/
theorem resolvePath_spellings (D fb : JsVal) (a b : JsStr) :
    resolvePath D (a ++ js "." ++ b) fb = resolvePath D (js " " ++ a ++ js " . " ++ b ++ js " ") fb ∧
    resolvePath D (a ++ js "." ++ b) fb = resolvePath D (a ++ js ".." ++ b) fb ∧
    resolvePath D (a ++ js "." ++ b) fb = resolvePath D (a ++ js "." ++ b ++ js ".") fb := by
  have hb : isTrimUnit 32 = true := by decide
  have e1 : a ++ js "." ++ b = a ++ 46 :: b := by simp [js, charUnits]
  have e2 : js " " ++ a ++ js " . " ++ b ++ js " " = (32 :: (a ++ [32])) ++ 46 :: (32 :: (b ++ [32])) := by
    simp [js, charUnits]
  have e3 : a ++ js ".." ++ b = a ++ 46 :: ([] ++ 46 :: b) := by simp [js, charUnits]
  have e4 : a ++ js "." ++ b ++ js "." = a ++ 46 :: (b ++ 46 :: []) := by simp [js, charUnits]
  have n1 : (a ++ 46 :: b).isEmpty = false := by cases a <;> rfl
  refine ⟨?_, ?_, ?_⟩
  · rw [e2, e1]
    refine resolvePath_congr_parts D fb _ _ n1 rfl ?_
    rw [pathParts_append_dot, pathParts_append_dot, pathParts_cons_blank 32 hb,
      pathParts_cons_blank 32 hb, pathParts_append_blank 32 hb, pathParts_append_blank 32 hb]
  · rw [e3, e1]
    refine resolvePath_congr_parts D fb _ _ n1 (by cases a <;> rfl) ?_
    rw [pathParts_append_dot, pathParts_append_dot, pathParts_append_dot, pathParts_nil,
      List.nil_append]
  · rw [e4, e1]
    refine resolvePath_congr_parts D fb _ _ n1 (by cases a <;> rfl) ?_
    rw [pathParts_append_dot, pathParts_append_dot, pathParts_append_dot, pathParts_nil,
      List.append_nil]

/-! ## Properties of `resolvePath` -/

/-- C1: when the segments of the path (at least one) can be walked from the
document by own keys through mappings to a value that is neither `null` nor
`undefined`, `resolvePath` returns that very value, whatever the fallback; the
value keeps its type (a number stays a number, `0`, `false` and `""` are
returned as they are). -/
theorem resolvePath_found (D fb v : JsVal) (p : JsStr)
    (hparts : pathParts p ≠ [])
    (hwalk : walkMappings D (pathParts p) = some v)
    (hnull : v ≠ .null) (hundef : v ≠ .undefined) :
    resolvePath D p fb = .ok v := by
  rw [resolvePath_eq_loop D p fb (path_nonempty_of_parts hparts),
    resolveLoop_walkMappings _ _ _ _ hwalk]
  cases v <;> first | rfl | exact absurd rfl hnull | exact absurd rfl hundef

theorem resolvePath_found_witness :
    resolvePath (.obj [(js "a", .obj [(js "zero", .num 0), (js "no", .bool false),
        (js "empty", .str [])])]) (js " a . zero ") (.str (js "fb")) = .ok (.num 0) ∧
    resolvePath (.obj [(js "a", .obj [(js "zero", .num 0), (js "no", .bool false),
        (js "empty", .str [])])]) (js "a.no") (.str (js "fb")) = .ok (.bool false) ∧
    resolvePath (.obj [(js "a", .obj [(js "zero", .num 0), (js "no", .bool false),
        (js "empty", .str [])])]) (js "a.empty") (.str (js "fb")) = .ok (.str []) :=
  ⟨resolvePath_found _ _ _ _ (by decide) (by rfl) (by simp) (by simp),
   resolvePath_found _ _ _ _ (by decide) (by rfl) (by simp) (by simp),
   resolvePath_found _ _ _ _ (by decide) (by rfl) (by simp) (by simp)⟩

/-- C2: for a path with at least one segment and a supplied fallback (an
`undefined` third argument is the omitted one), if at some step the next segment
is not an own key of the mapping reached so far, or if all segments are walked
and the value reached is `null`, `resolvePath` returns the fallback. Only own
entries count: a name such as `toString` that no entry carries is absent. -/
theorem resolvePath_absent_or_null (D fb : JsVal) (p : JsStr) (hfb : fb ≠ .undefined)
    (hparts : pathParts p ≠ [])
    (h : (∃ pre s rest entries, pathParts p = pre ++ s :: rest ∧
            walkMappings D pre = some (.obj entries) ∧ lookupKey s entries = none) ∨
         walkMappings D (pathParts p) = some .null) :
    resolvePath D p fb = .ok fb := by
  rw [resolvePath_eq_loop D p fb (path_nonempty_of_parts hparts), paramDefault_of_ne hfb]
  rcases h with ⟨pre, s, rest, entries, hsplit, hwalk, hkey⟩ | hnull
  · rw [hsplit]
    exact resolveLoop_stops fb pre s rest D _ hwalk (Or.inr hkey)
  · rw [resolveLoop_walkMappings _ _ _ _ hnull]
    rfl

theorem resolvePath_absent_or_null_witness :
    resolvePath (.obj [(js "a", .obj [(js "b", .null)])]) (js "a.toString") (.str (js "fb"))
        = .ok (.str (js "fb")) ∧
    resolvePath (.obj [(js "a", .obj [(js "b", .null)])]) (js "a.b") (.str (js "fb"))
        = .ok (.str (js "fb")) :=
  ⟨resolvePath_absent_or_null _ _ _ (by simp) (by decide)
      (Or.inl ⟨[js "a"], js "toString", [], [(js "b", .null)], by decide, by rfl, by rfl⟩),
   resolvePath_absent_or_null _ _ _ (by simp) (by decide) (Or.inr (by rfl))⟩

/-- C3, at the failing input: the empty path gives the fallback, but a path of
three blanks gives the document itself. -/
theorem resolvePath_blank_path :
    resolvePath (.obj [(js "a", .num 5)]) (js "") (.str (js "fb")) = .ok (.str (js "fb")) ∧
    resolvePath (.obj [(js "a", .num 5)]) (js "   ") (.str (js "fb"))
      = .ok (.obj [(js "a", .num 5)]) ∧
    resolvePath (.obj [(js "a", .num 5)]) (js "   ") (.str (js "fb")) ≠ .ok (.str (js "fb")) :=
  ⟨by rfl, by rfl, by simp [show resolvePath (.obj [(js "a", .num 5)]) (js "   ")
      (.str (js "fb")) = .ok (.obj [(js "a", .num 5)]) from rfl]⟩

/-- C4 fails as stated: an array node owns `length` and a string node owns its
index `0`, and the walk goes on through them instead of giving the fallback. -/
theorem resolvePath_nonMapping_counterexample :
    pathParts (js "a.length") = [js "a"] ++ js "length" :: [] ∧
    walkMappings (.obj [(js "a", .arr [.num 5, .num 6])]) [js "a"] =
      some (.arr [.num 5, .num 6]) ∧
    isMapping (.arr [.num 5, .num 6]) = false ∧
    resolvePath (.obj [(js "a", .arr [.num 5, .num 6])]) (js "a.length") (.str (js "fb"))
      = .ok (.num 2) ∧
    resolvePath (.obj [(js "a", .arr [.num 5, .num 6])]) (js "a.length") (.str (js "fb"))
      ≠ .ok (.str (js "fb")) ∧
    walkMappings (.obj [(js "s", .str (js "hi"))]) [js "s"] = some (.str (js "hi")) ∧
    isMapping (.str (js "hi")) = false ∧
    resolvePath (.obj [(js "s", .str (js "hi"))]) (js "s.0") (.str (js "fb"))
      = .ok (.str (js "h")) ∧
    resolvePath (.obj [(js "s", .str (js "hi"))]) (js "s.0") (.str (js "fb"))
      ≠ .ok (.str (js "fb")) := by
  refine ⟨by decide, by rfl, by rfl, by rfl, ?_, by rfl, by rfl, by rfl, ?_⟩
  · rw [show resolvePath (.obj [(js "a", .arr [.num 5, .num 6])]) (js "a.length")
      (.str (js "fb")) = .ok (.num 2) from rfl]
    simp
  · rw [show resolvePath (.obj [(js "s", .str (js "hi"))]) (js "s.0")
      (.str (js "fb")) = .ok (.str (js "h")) from rfl]
    simp only [ne_eq, Except.ok.injEq, JsVal.str.injEq]
    decide

/-- C4, amended: let the walk by own keys reach a node with a segment `s` still
to consume, the fallback being supplied. If the node is a number, a boolean,
`null`, `undefined`, the empty string, or an array or non-empty string for which
`s` is neither `length` nor the decimal key of an index in range, `resolvePath`
returns the fallback. If the node is an array and `s` is `length` or the key of
an index in range, or the node is a non-empty string and `s` is `length` or the
key of a code-unit index in range, the walk goes on from that property: the
length as a number, the array element, the one-unit string. -/
theorem resolvePath_nonMapping (D fb : JsVal) (p : JsStr) (pre : List JsStr) (s : JsStr)
    (rest : List JsStr) (node : JsVal) (hfb : fb ≠ .undefined)
    (hsplit : pathParts p = pre ++ s :: rest)
    (hwalk : walkOwn D pre = some node) :
    (segmentNotOwned node s = true → resolvePath D p fb = .ok fb) ∧
    (∀ items, node = .arr items → s = js "length" →
      ContinuesFrom D p fb (.num items.length) rest) ∧
    (∀ items i child, node = .arr items → items.get? i = some child → s = indexKey i →
      ContinuesFrom D p fb child rest) ∧
    (∀ u, node = .str u → u ≠ [] → s = js "length" →
      ContinuesFrom D p fb (.num u.length) rest) ∧
    (∀ u i c, node = .str u → u.get? i = some c → s = indexKey i →
      ContinuesFrom D p fb (.str [c]) rest) := by
  refine ⟨?_, ?_, ?_, ?_, ?_⟩
  · intro hnode
    have hparts : pathParts p ≠ [] := by simp [hsplit]
    rw [resolvePath_eq_loop D p fb (path_nonempty_of_parts hparts), paramDefault_of_ne hfb,
      hsplit, resolveLoop_reach fb pre s rest D node hwalk, resolveLoop_cons]
    rcases ownProperty_none_of_segmentNotOwned hnode with h | h
    · simp [h]
    · simp [h]
  · intro items hn hs
    subst hn hs
    exact continuesFrom_of_step D fb p pre _ rest _ _ hfb hsplit hwalk rfl
      (ownProperty_arr_length items)
  · intro items i child hn hget hs
    subst hn hs
    exact continuesFrom_of_step D fb p pre _ rest _ _ hfb hsplit hwalk rfl
      (ownProperty_arr_index items i child hget)
  · intro u hn hu hs
    subst hn hs
    have ht : truthy (.str u) = true := by
      cases u with
      | nil => exact absurd rfl hu
      | cons c cs => rfl
    exact continuesFrom_of_step D fb p pre _ rest _ _ hfb hsplit hwalk ht
      (ownProperty_str_length u)
  · intro u i c hn hget hs
    subst hn hs
    have ht : truthy (.str u) = true := by
      cases u with
      | nil => simp at hget
      | cons c cs => rfl
    exact continuesFrom_of_step D fb p pre _ rest _ _ hfb hsplit hwalk ht
      (ownProperty_str_index u i c hget)

theorem resolvePath_nonMapping_witness :
    resolvePath (.obj [(js "a", .arr [.num 7])]) (js "a.0.x") (.str (js "fb"))
      = .ok (.str (js "fb")) ∧
    resolvePath (.obj [(js "a", .arr [.num 5, .num 6])]) (js "a.2.x") (.str (js "fb"))
      = .ok (.str (js "fb")) ∧
    resolvePath (.obj [(js "a", .arr [.num 5, .num 6])]) (js "a.1") (.str (js "fb"))
      = .ok (.num 6) ∧
    resolvePath (.obj [(js "a", .arr [.str (js "hi")])]) (js "a.0.length") (.str (js "fb"))
      = .ok (.num 2) :=
  ⟨(resolvePath_nonMapping _ _ _ [js "a", js "0"] (js "x") [] (.num 7)
      (by simp) (by decide) (by rfl)).1 (by rfl),
   (resolvePath_nonMapping _ _ _ [js "a"] (js "2") [js "x"] (.arr [.num 5, .num 6])
      (by simp) (by decide) (by rfl)).1 (by decide),
   ((resolvePath_nonMapping _ _ _ [js "a"] (js "1") [] (.arr [.num 5, .num 6])
      (by simp) (by decide) (by rfl)).2.2.1 [.num 5, .num 6] 1 (.num 6) rfl rfl
        (by decide)).1 rfl,
   ((resolvePath_nonMapping _ _ _ [js "a", js "0"] (js "length") [] (.str (js "hi"))
      (by simp) (by decide) (by rfl)).2.2.2.1 (js "hi") rfl (by decide) rfl).1 rfl⟩

/-- C5: for a document of any shape, any string path and any supplied fallback,
`resolvePath` returns (it does not throw), and what it returns is the fallback
or the value that the walk of the path segments by own keys finds in the
document. -/
theorem resolvePath_total (D fb : JsVal) (p : JsStr) (hfb : fb ≠ .undefined) :
    ∃ v, resolvePath D p fb = .ok v ∧ (v = fb ∨ walkOwn D (pathParts p) = some v) := by
  cases hp : p.isEmpty with
  | true =>
    refine ⟨fb, ?_, Or.inl rfl⟩
    simp [resolvePath, hp, paramDefault_of_ne hfb]
  | false =>
    rw [resolvePath_eq_loop D p fb hp, paramDefault_of_ne hfb]
    exact resolveLoop_total fb (pathParts p) D

theorem resolvePath_total_witness :
    ∃ v, resolvePath (.arr [.null, .undefined, .num 3]) (js "0.x") .null = .ok v ∧
      (v = .null ∨ walkOwn (.arr [.null, .undefined, .num 3]) (pathParts (js "0.x")) = some v) :=
  resolvePath_total _ _ _ (by simp)

/-- C6, at the failing input: the empty path and the one-blank path have the
same (empty) segment sequence, yet the first gives the fallback and the second
the document. -/
theorem resolvePath_same_parts_differ :
    pathParts (js "") = pathParts (js " ") ∧
    resolvePath (.obj []) (js "") (.str (js "fb")) = .ok (.str (js "fb")) ∧
    resolvePath (.obj []) (js " ") (.str (js "fb")) = .ok (.obj []) := by
  refine ⟨by decide, by rfl, by rfl⟩

/-! ## Lemmas on the compositor -/

theorem resolvePath_ok (D : JsVal) (p : JsStr) (fb : JsVal) :
    ∃ v, resolvePath D p fb = .ok v := by
  cases hp : p.isEmpty with
  | true => exact ⟨paramDefault fb, by simp [resolvePath, hp]⟩
  | false =>
    rw [resolvePath_eq_loop D p fb hp]
    obtain ⟨v, hv, _⟩ := resolveLoop_total (paramDefault fb) (pathParts p) D
    exact ⟨v, hv⟩

theorem addedPages_append (a b : List PdfOp) :
    addedPages (a ++ b) = addedPages a + addedPages b := by
  induction a with
  | nil => simp [addedPages]
  | cons op a ih =>
    cases op <;> simp [addedPages, ih]
    omega

theorem textsFrom_append (page : Nat) (a b : List PdfOp) :
    textsFrom page (a ++ b) = textsFrom page a ++ textsFrom (page + addedPages a) b := by
  induction a generalizing page with
  | nil => simp [textsFrom, addedPages]
  | cons op a ih =>
    cases op <;> simp [textsFrom, addedPages, ih]
    rw [show page + 1 + addedPages a = page + (addedPages a + 1) by omega]

theorem shapesFrom_append (page : Nat) (a b : List PdfOp) :
    shapesFrom page (a ++ b) = shapesFrom page a ++ shapesFrom (page + addedPages a) b := by
  induction a generalizing page with
  | nil => simp [shapesFrom, addedPages]
  | cons op a ih =>
    cases op <;> simp [shapesFrom, addedPages, ih]
    rw [show page + 1 + addedPages a = page + (addedPages a + 1) by omega]

theorem savedAs_append (a b : List PdfOp) :
    savedAs (a ++ b) = (savedAs a).orElse (fun _ => savedAs b) := by
  induction a with
  | nil => simp [savedAs]
  | cons op a ih => cases op <;> simp [savedAs, ih]

theorem strOr_nil (a : JsStr) : strOr a [] = a := by
  cases a <;> rfl

theorem strOr_align_right (a : JsStr) : (strOr a (js "left") = js "right") ↔ (a = js "right") := by
  cases a with
  | nil => decide
  | cons c cs => simp [strOr]

theorem strOr_align_center (a : JsStr) :
    (strOr a (js "left") = js "center") ↔ (a = js "center") := by
  cases a with
  | nil => decide
  | cons c cs => simp [strOr]

theorem safeLabel_eq (a : JsStr) : (if a.isEmpty = true then ([] : JsStr) else a) = a := by
  cases a <;> rfl

/-- What one `writeFieldLine` call adds to the document when the value has a
display string. -/
theorem writeFieldLine_spec (host : Host) (data : JsVal) (st : RenderState) (f : Field)
    (value : JsVal) (shown : JsStr)
    (hv : resolvePath data f.mapping f.defaultValue = .ok value)
    (hs : jsToString host (nullish value (.str [])) = .ok shown) :
    ∃ st2, writeFieldLine host st (strOr f.keyLabel []) value (strOr f.align (js "left"))
        = .ok st2 ∧
      textsFrom 1 st2.ops =
        textsFrom 1 st.ops ++
          [(lineTexts host data f (linePlace host (1 + addedPages st.ops) st.y)).label,
           (lineTexts host data f (linePlace host (1 + addedPages st.ops) st.y)).value] ∧
      shapesFrom 1 st2.ops = shapesFrom 1 st.ops ∧
      1 + addedPages st2.ops = (linePlace host (1 + addedPages st.ops) st.y).1 ∧
      st2.y = (linePlace host (1 + addedPages st.ops) st.y).2 + 7 ∧
      savedAs st2.ops = savedAs st.ops := by
  have hd : shownValue host data f = shown := by
    simp [shownValue, displayValue, hv, hs]
  simp only [writeFieldLine, hs]
  refine ⟨_, rfl, ?_⟩
  have hcr : js "center" ≠ js "right" := by decide
  have hassoc : 1 + (addedPages st.ops + 1) = 1 + addedPages st.ops + 1 := by omega
  simp only [writeFieldLine, strOr_nil, safeLabel_eq, strOr_align_right, strOr_align_center,
    textsFrom_append, shapesFrom_append, addedPages_append, savedAs_append]
  by_cases hbreak : st.y + 8 > host.pageHeight - 20
  · have he : ensureSpace host 8 st = { ops := st.ops ++ [PdfOp.addPage], y := 20 } := by
      simp [ensureSpace, bottomMargin, marginY, hbreak]
    have hp : linePlace host (1 + addedPages st.ops) st.y = (1 + addedPages st.ops + 1, 20) := by
      simp [linePlace, hbreak]
    rw [he, hp]
    by_cases hr : f.align = js "right"
    · simp [hr, lineTexts, textsFrom, shapesFrom, addedPages, savedAs, textsFrom_append,
        shapesFrom_append, addedPages_append, savedAs_append, marginX, hd, hcr, hassoc]
    · by_cases hc : f.align = js "center"
      · simp [hr, hc, lineTexts, textsFrom, shapesFrom, addedPages, savedAs, textsFrom_append,
          shapesFrom_append, addedPages_append, savedAs_append, marginX, hd, hcr, hassoc]
      · simp [hr, hc, lineTexts, textsFrom, shapesFrom, addedPages, savedAs, textsFrom_append,
          shapesFrom_append, addedPages_append, savedAs_append, marginX, hd, hcr, hassoc]
  · have he : ensureSpace host 8 st = st := by
      simp [ensureSpace, bottomMargin, hbreak]
    have hp : linePlace host (1 + addedPages st.ops) st.y = (1 + addedPages st.ops, st.y) := by
      simp [linePlace, hbreak]
    rw [he, hp]
    by_cases hr : f.align = js "right"
    · simp [hr, lineTexts, textsFrom, shapesFrom, addedPages, savedAs, marginX, hd, hcr, hassoc]
    · by_cases hc : f.align = js "center"
      · simp [hr, hc, lineTexts, textsFrom, shapesFrom, addedPages, savedAs, marginX, hd, hcr, hassoc]
      · simp [hr, hc, lineTexts, textsFrom, shapesFrom, addedPages, savedAs, marginX, hd, hcr, hassoc]

theorem lineTextList_cons (l : FieldLine) (ls : List FieldLine) :
    lineTextList (l :: ls) = l.label :: l.value :: lineTextList ls := by
  simp [lineTextList]

theorem pairLines_lineTextList (ls : List FieldLine) : pairLines (lineTextList ls) = ls := by
  induction ls with
  | nil => rfl
  | cons l ls ih => rw [lineTextList_cons, pairLines, ih]

theorem length_lineTextList (ls : List FieldLine) :
    (lineTextList ls).length = 2 * ls.length := by
  induction ls with
  | nil => rfl
  | cons l ls ih => rw [lineTextList_cons]; simp [ih]; omega

theorem length_flowPlaces (host : Host) (page : Nat) (y : ℚ) (n : Nat) :
    (flowPlaces host page y n).length = n := by
  induction n generalizing page y with
  | zero => rfl
  | succ n ih => simp [flowPlaces, ih]

theorem jsError_eq (e : JsError) : e = .typeError := by
  cases e
  rfl

theorem displayValue_of_resolved (host : Host) (data : JsVal) (f : Field) (value : JsVal)
    (hv : resolvePath data f.mapping f.defaultValue = .ok value) :
    displayValue host data f = jsToString host (nullish value (.str [])) := by
  simp [displayValue, hv]

theorem displayValue_eq_shownValue (host : Host) (data : JsVal) (f : Field)
    (h : ∃ s, displayValue host data f = .ok s) :
    displayValue host data f = .ok (shownValue host data f) := by
  obtain ⟨s, hs⟩ := h
  simp [shownValue, hs]

/-- What the `forEach` loop adds to the document when every field has a display
string. -/
theorem forEachField_spec (host : Host) (data : JsVal) (fs : List Field) (st : RenderState)
    (hshow : ∀ f ∈ fs, ∃ s, displayValue host data f = .ok s) :
    ∃ st2, forEachField host data st fs = .ok st2 ∧
      textsFrom 1 st2.ops = textsFrom 1 st.ops ++
        lineTextList (List.zipWith (lineTexts host data) fs
          (flowPlaces host (1 + addedPages st.ops) st.y fs.length)) ∧
      shapesFrom 1 st2.ops = shapesFrom 1 st.ops ∧
      1 + addedPages st2.ops = flowPage host (1 + addedPages st.ops) st.y fs.length ∧
      savedAs st2.ops = savedAs st.ops := by
  induction fs generalizing st with
  | nil => exact ⟨st, rfl, by simp [flowPlaces, lineTextList], rfl, rfl, rfl⟩
  | cons f fs ih =>
    obtain ⟨value, hv⟩ := resolvePath_ok data f.mapping f.defaultValue
    obtain ⟨shown, hshown⟩ := hshow f (List.mem_cons_self f fs)
    rw [displayValue_of_resolved host data f value hv] at hshown
    obtain ⟨st1, hrun1, ht, hs, hp, hy, hsave⟩ :=
      writeFieldLine_spec host data st f value shown hv hshown
    obtain ⟨st2, hrun, ht2, hs2, hp2, hsave2⟩ :=
      ih st1 (fun g hg => hshow g (List.mem_cons_of_mem f hg))
    refine ⟨st2, ?_, ?_, ?_, ?_, ?_⟩
    · rw [forEachField, hv]
      simp only [hrun1]
      exact hrun
    · rw [ht2, ht, hp, hy]
      simp [flowPlaces, lineTextList_cons]
    · rw [hs2, hs]
    · rw [hp2, hp, hy]
      rfl
    · rw [hsave2, hsave]

/-- The loop throws as soon as one field has no display string. -/
theorem forEachField_throws (host : Host) (data : JsVal) (fs : List Field) (st : RenderState)
    (hthrow : ∃ f ∈ fs, displayValue host data f = .error .typeError) :
    forEachField host data st fs = .error .typeError := by
  induction fs generalizing st with
  | nil =>
    obtain ⟨f, hf, _⟩ := hthrow
    simp at hf
  | cons g fs ih =>
    obtain ⟨value, hv⟩ := resolvePath_ok data g.mapping g.defaultValue
    rw [forEachField, hv]
    cases hw : writeFieldLine host st (strOr g.keyLabel []) value (strOr g.align (js "left")) with
    | error e =>
      rw [jsError_eq e] at hw
      simp only [hw]
    | ok next =>
      simp only [hw]
      apply ih
      obtain ⟨f, hf, hfe⟩ := hthrow
      rcases List.mem_cons.mp hf with rfl | hmem
      · exfalso
        rw [displayValue_of_resolved host data f value hv] at hfe
        simp [writeFieldLine, hfe] at hw
      · exact ⟨f, hmem, hfe⟩

theorem generate_throws (host : Host) (template : Template) (data : JsVal)
    (hthrow : ∃ f ∈ sections template, displayValue host data f = .error .typeError) :
    generatePdfFromTemplate host template data = .error .typeError := by
  rw [generatePdfFromTemplate, forEachField_throws host data _ _ hthrow]

/-- The texts, shapes, page count and file name of the generated document. -/
theorem generate_spec (host : Host) (template : Template) (data : JsVal)
    (hshow : ∀ f ∈ sections template, ∃ s, displayValue host data f = .ok s) :
    ∃ ops, generatePdfFromTemplate host template data = .ok ops ∧
      texts ops =
        ⟨1, strOr template.name (js "Document"), host.pageWidth / 2, 30, some (js "center")⟩ ::
        ⟨1, subtitle host template, 18, 44, none⟩ ::
        lineTextList (List.zipWith (lineTexts host data) (sections template)
          (flowPlaces host 1 62 (sections template).length)) ∧
      shapes ops =
        [(1, PdfOp.roundedRect 18 20 (host.pageWidth - 36) 16 3 3 (js "F")),
         (1, PdfOp.line 18 52 (host.pageWidth - 18) 52)] ∧
      pageCount ops = flowPage host 1 62 (sections template).length ∧
      savedAs ops = some (strOr template.name (js "document") ++ js ".pdf") := by
  obtain ⟨st2, hrun, ht, hs, hp, hsave⟩ :=
    forEachField_spec host data (sections template) (preamble host template) hshow
  have hpre_pages : addedPages (preamble host template).ops = 0 := by
    simp [preamble, addedPages]
  have hpre_y : (preamble host template).y = 62 := by
    simp only [preamble, marginY]; norm_num
  have hpre_texts : textsFrom 1 (preamble host template).ops =
      [⟨1, strOr template.name (js "Document"), host.pageWidth / 2, 30, some (js "center")⟩,
       ⟨1, subtitle host template, 18, 44, none⟩] := by
    simp only [preamble, marginY, marginX, List.cons_append, List.nil_append, textsFrom]
    norm_num
  have hpre_shapes : shapesFrom 1 (preamble host template).ops =
      [(1, PdfOp.roundedRect 18 20 (host.pageWidth - 36) 16 3 3 (js "F")),
       (1, PdfOp.line 18 52 (host.pageWidth - 18) 52)] := by
    simp only [preamble, marginY, marginX, List.cons_append, List.nil_append, shapesFrom]
    norm_num
  have hpre_save : savedAs (preamble host template).ops = none := by
    simp [preamble, savedAs]
  rw [hpre_pages, hpre_y] at ht hp
  refine ⟨_, by rw [generatePdfFromTemplate, hrun], ?_, ?_, ?_, ?_⟩
  · simp only [texts, textsFrom_append, ht, hpre_texts, textsFrom, List.append_nil,
      List.cons_append, List.nil_append, Nat.add_zero, marginX, marginY]
    norm_num
  · simp only [shapes, shapesFrom_append, hs, hpre_shapes, shapesFrom, List.append_nil,
      marginX, marginY]
    norm_num
  · simp only [pageCount, addedPages_append, addedPages]
    simpa using hp
  · simp [savedAs_append, hsave, hpre_save, savedAs]

/-- Places ordered by increasing page, then increasing height. -/
theorem flowPlaces_after (host : Host) (n : Nat) (page : Nat) (y : ℚ) :
    ∀ q ∈ flowPlaces host page y n, page < q.1 ∨ (page = q.1 ∧ y ≤ q.2) := by
  induction n generalizing page y with
  | zero => intro q hq; simp [flowPlaces] at hq
  | succ n ih =>
    intro q hq
    rw [flowPlaces, List.mem_cons] at hq
    by_cases hbreak : y + 8 > host.pageHeight - 20
    · have hp : linePlace host page y = (page + 1, 20) := by simp [linePlace, hbreak]
      rw [hp] at hq
      rcases hq with rfl | hq
      · left; simp
      · rcases ih _ _ q hq with h | ⟨h, _⟩
        · left; simp at h; omega
        · left; simp at h; omega
    · have hp : linePlace host page y = (page, y) := by simp [linePlace, hbreak]
      rw [hp] at hq
      rcases hq with rfl | hq
      · right; simp
      · rcases ih _ _ q hq with h | ⟨h, h2⟩
        · left; exact h
        · right
          refine ⟨h, ?_⟩
          simp only at h2
          linarith

theorem flowPlaces_pairwise (host : Host) (n : Nat) (page : Nat) (y : ℚ) :
    List.Pairwise (fun a b : Nat × ℚ => a.1 < b.1 ∨ (a.1 = b.1 ∧ a.2 < b.2))
      (flowPlaces host page y n) := by
  induction n generalizing page y with
  | zero => simp [flowPlaces]
  | succ n ih =>
    rw [flowPlaces, List.pairwise_cons]
    refine ⟨?_, ih _ _⟩
    intro q hq
    rcases flowPlaces_after host n _ _ q hq with h | ⟨h, h2⟩
    · left; exact h
    · right
      refine ⟨h, ?_⟩
      linarith

theorem lineTexts_label_place (host : Host) (data : JsVal) (f : Field) (p : Nat × ℚ) :
    ((lineTexts host data f p).label.page, (lineTexts host data f p).label.y) = p := by
  simp [lineTexts]

theorem lineTexts_value_place (host : Host) (data : JsVal) (f : Field) (p : Nat × ℚ) :
    ((lineTexts host data f p).value.page, (lineTexts host data f p).value.y) = p := by
  unfold lineTexts
  dsimp only
  split_ifs <;> rfl

theorem map_zipWith_eq_right {α β γ : Type} (h : α → β → γ) (g : γ → β)
    (hg : ∀ a b, g (h a b) = b) (as : List α) (bs : List β) (hlen : as.length = bs.length) :
    (List.zipWith h as bs).map g = bs := by
  induction as generalizing bs with
  | nil =>
    cases bs with
    | nil => rfl
    | cons b bs => simp at hlen
  | cons a as ih =>
    cases bs with
    | nil => simp at hlen
    | cons b bs =>
      simp only [List.length_cons, Nat.add_right_cancel_iff] at hlen
      simp [hg, ih bs hlen]

theorem map_zipWith_eq_left {α β γ δ : Type} (h : α → β → γ) (g : γ → δ) (k : α → δ)
    (hg : ∀ a b, g (h a b) = k a) (as : List α) (bs : List β) (hlen : as.length = bs.length) :
    (List.zipWith h as bs).map g = as.map k := by
  induction as generalizing bs with
  | nil => simp
  | cons a as ih =>
    cases bs with
    | nil => simp at hlen
    | cons b bs =>
      simp only [List.length_cons, Nat.add_right_cancel_iff] at hlen
      simp [hg, ih bs hlen]

theorem forall₂_zipWith {α β γ : Type} (h : α → β → γ) (R : α → γ → Prop)
    (as : List α) (bs : List β) (hR : ∀ a ∈ as, ∀ b, R a (h a b))
    (hlen : as.length = bs.length) :
    List.Forall₂ R as (List.zipWith h as bs) := by
  induction as generalizing bs with
  | nil => simp
  | cons a as ih =>
    cases bs with
    | nil => simp at hlen
    | cons b bs =>
      simp only [List.length_cons, Nat.add_right_cancel_iff] at hlen
      simp only [List.zipWith_cons_cons]
      exact List.Forall₂.cons (hR a (List.mem_cons_self a as) b)
        (ih bs (fun x hx => hR x (List.mem_cons_of_mem a hx)) hlen)

/-- The field lines of the generated document. -/
theorem generate_lines (host : Host) (template : Template) (data : JsVal)
    (hshow : ∀ f ∈ sections template, ∃ s, displayValue host data f = .ok s) :
    ∃ ops, generatePdfFromTemplate host template data = .ok ops ∧
      texts ops =
        ⟨1, strOr template.name (js "Document"), host.pageWidth / 2, 30, some (js "center")⟩ ::
        ⟨1, subtitle host template, 18, 44, none⟩ :: lineTextList (fieldLines ops) ∧
      fieldLines ops = List.zipWith (lineTexts host data) (sections template)
          (flowPlaces host 1 62 (sections template).length) ∧
      shapes ops =
        [(1, PdfOp.roundedRect 18 20 (host.pageWidth - 36) 16 3 3 (js "F")),
         (1, PdfOp.line 18 52 (host.pageWidth - 18) 52)] ∧
      pageCount ops = flowPage host 1 62 (sections template).length ∧
      savedAs ops = some (strOr template.name (js "document") ++ js ".pdf") := by
  obtain ⟨ops, hrun, ht, hs, hp, hsave⟩ := generate_spec host template data hshow
  have hl : fieldLines ops = List.zipWith (lineTexts host data) (sections template)
      (flowPlaces host 1 62 (sections template).length) := by
    rw [fieldLines, ht]
    simp only [List.drop_succ_cons, List.drop_zero]
    exact pairLines_lineTextList _
  exact ⟨ops, hrun, by rw [hl]; exact ht, hl, hs, hp, hsave⟩

theorem lineTexts_label_str (host : Host) (data : JsVal) (f : Field) (p : Nat × ℚ) :
    (lineTexts host data f p).label.str = f.keyLabel ++ js ":" := rfl

theorem lineTexts_value_str (host : Host) (data : JsVal) (f : Field) (p : Nat × ℚ) :
    (lineTexts host data f p).value.str = shownValue host data f := by
  unfold lineTexts
  dsimp only
  split_ifs <;> rfl

theorem lineTexts_anchor (host : Host) (data : JsVal) (f : Field) (p : Nat × ℚ) :
    (lineTexts host data f p).value.x =
      if f.align = js "right" then host.pageWidth - marginX
      else if f.align = js "center" then host.pageWidth / 2
      else marginX + 40 := by
  unfold lineTexts marginX
  dsimp only
  split_ifs <;> rfl

theorem lineTexts_align (host : Host) (data : JsVal) (f : Field) (p : Nat × ℚ) :
    (lineTexts host data f p).value.align =
      if f.align = js "right" then some (js "right")
      else if f.align = js "center" then some (js "center")
      else none := by
  unfold lineTexts
  dsimp only
  split_ifs <;> rfl

/-- Each field line shows its own field: the label with a colon and the display
string of the resolved value. -/
theorem lines_show_fields (host : Host) (data : JsVal) (fs : List Field)
    (places : List (Nat × ℚ)) (hlen : fs.length = places.length)
    (hshow : ∀ f ∈ fs, ∃ s, displayValue host data f = .ok s) :
    List.Forall₂
      (fun (f : Field) (l : FieldLine) =>
        l.label.str = f.keyLabel ++ js ":" ∧ displayValue host data f = .ok l.value.str)
      fs (List.zipWith (lineTexts host data) fs places) := by
  refine forall₂_zipWith _ _ fs places ?_ hlen
  intro f hf p
  refine ⟨rfl, ?_⟩
  rw [lineTexts_value_str]
  exact displayValue_eq_shownValue host data f (hshow f hf)

theorem alice_shows_name : ∃ s, displayValue a4Host aliceRecord nameField = .ok s :=
  ⟨_, rfl⟩

theorem alice_shows_total : ∃ s, displayValue a4Host aliceRecord totalField = .ok s :=
  ⟨_, rfl⟩

theorem shadowed_name_throws :
    displayValue a4Host shadowedRecord nameField = .error .typeError := rfl

/-- The end-to-end example of the specification: the `Payslip` template against
Alice's record gives one page with the title, the subtitle and the two lines. -/
theorem payslip_example :
    ∃ ops, generatePdfFromTemplate a4Host payslipTemplate aliceRecord = .ok ops ∧
      pageCount ops = 1 ∧
      texts ops =
        [⟨1, js "Payslip", 105, 30, some (js "center")⟩,
         ⟨1, js "Salary template generated from JSON mapping", 18, 44, none⟩,
         ⟨1, js "Name:", 18, 62, none⟩,
         ⟨1, js "Alice Johnson", 58, 62, none⟩,
         ⟨1, js "Total:", 18, 69, none⟩,
         ⟨1, js "75000", 192, 69, some (js "right")⟩] := by
  have hshow : ∀ f ∈ sections payslipTemplate,
      ∃ s, displayValue a4Host aliceRecord f = .ok s := by
    intro f hf
    simp only [sections, payslipTemplate, Option.getD_none, Option.getD_some, List.nil_append,
      List.append_nil, List.mem_cons, List.mem_singleton, List.not_mem_nil, or_false] at hf
    rcases hf with rfl | rfl
    · exact alice_shows_name
    · exact alice_shows_total
  obtain ⟨ops, hrun, ht, hl, -, hp, -⟩ :=
    generate_lines a4Host payslipTemplate aliceRecord hshow
  have h1 : ¬ ((62 : ℚ) + 8 > a4Host.pageHeight - 20) := by norm_num [a4Host]
  have h2 : ¬ ((62 : ℚ) + 7 + 8 > a4Host.pageHeight - 20) := by norm_num [a4Host]
  have hplaces : flowPlaces a4Host 1 62 2 = [(1, 62), (1, 69)] := by
    simp only [flowPlaces, linePlace, if_neg h1, if_neg h2]
    norm_num
  have hpage : flowPage a4Host 1 62 2 = 1 := by
    simp only [flowPage, linePlace, if_neg h1, if_neg h2]
  have hs : (sections payslipTemplate).length = 2 := rfl
  refine ⟨ops, hrun, ?_, ?_⟩
  · rw [hp]
    exact hpage
  · rw [ht, hl, hs, hplaces]
    have hw : a4Host.pageWidth = 210 := rfl
    have e1 : strOr payslipTemplate.name (js "Document") = js "Payslip" := by decide
    have e2 : subtitle a4Host payslipTemplate =
        js "Salary template generated from JSON mapping" := by decide
    have e3 : sections payslipTemplate = [nameField, totalField] := rfl
    rw [e1, e2, e3]
    simp only [List.zipWith_cons_cons, List.zipWith_nil_left, lineTextList, List.flatMap_cons,
      List.flatMap_nil, List.cons_append, List.nil_append, lineTexts, hw]
    have d1 : shownValue a4Host aliceRecord nameField = js "Alice Johnson" := by rfl
    have d2 : shownValue a4Host aliceRecord totalField = js "75000" := by rfl
    have k1 : nameField.keyLabel ++ js ":" = js "Name:" := by decide
    have k2 : totalField.keyLabel ++ js ":" = js "Total:" := by decide
    have a1 : nameField.align ≠ js "right" := by decide
    have a2 : nameField.align ≠ js "center" := by decide
    have a3 : totalField.align = js "right" := by decide
    rw [d1, d2, k1, k2]
    simp only [if_neg a1, if_neg a2, if_pos a3]
    norm_num

/-- When `n` lines fit from height `y` and one more does not, the first `n`
lines stay on the page and the next one opens the following page. -/
theorem flowPlaces_boundary (host : Host) (n : Nat) (page : Nat) (y : ℚ)
    (hfit : ∀ i : Nat, i < n → y + 7 * (i : ℚ) + 8 ≤ host.pageHeight - 20)
    (hover : y + 7 * (n : ℚ) + 8 > host.pageHeight - 20) :
    flowPlaces host page y (n + 1) =
        (List.range n).map (fun i : Nat => (page, y + 7 * (i : ℚ))) ++ [(page + 1, 20)] ∧
      flowPage host page y (n + 1) = page + 1 := by
  induction n generalizing y with
  | zero =>
    have hbreak : y + 8 > host.pageHeight - 20 := by simpa using hover
    simp [flowPlaces, flowPage, linePlace, hbreak]
  | succ n ih =>
    have h0 : ¬ (y + 8 > host.pageHeight - 20) := by
      have := hfit 0 (Nat.succ_pos n)
      simp only [Nat.cast_zero, mul_zero, add_zero] at this
      exact not_lt.mpr this
    have hp : linePlace host page y = (page, y) := by simp [linePlace, h0]
    have hfit2 : ∀ i : Nat, i < n → (y + 7) + 7 * (i : ℚ) + 8 ≤ host.pageHeight - 20 := by
      intro i hi
      have := hfit (i + 1) (Nat.succ_lt_succ hi)
      push_cast at this
      linarith
    have hover2 : (y + 7) + 7 * (n : ℚ) + 8 > host.pageHeight - 20 := by
      push_cast at hover
      linarith
    obtain ⟨ih1, ih2⟩ := ih (y + 7) hfit2 hover2
    constructor
    · rw [flowPlaces, hp, ih1, List.range_succ_eq_map]
      simp only [List.map_cons, List.map_map, List.cons_append, Nat.cast_zero, mul_zero,
        add_zero]
      congr 2
      apply List.map_congr_left
      intro i _
      simp only [Function.comp_apply, Nat.succ_eq_add_one, Prod.mk.injEq, true_and]
      push_cast
      ring
    · rw [flowPage, hp]
      exact ih2

theorem filter_lineTextList_all (k : Nat) (ls : List FieldLine)
    (h : ∀ l ∈ ls, l.label.page = k ∧ l.value.page = k) :
    (lineTextList ls).filter (fun t => decide (t.page = k)) = lineTextList ls := by
  induction ls with
  | nil => rfl
  | cons l ls ih =>
    have hl := h l (List.mem_cons_self l ls)
    rw [lineTextList_cons]
    simp [hl.1, hl.2, ih (fun m hm => h m (List.mem_cons_of_mem l hm))]

theorem filter_lineTextList_none (k : Nat) (ls : List FieldLine)
    (h : ∀ l ∈ ls, l.label.page ≠ k ∧ l.value.page ≠ k) :
    (lineTextList ls).filter (fun t => decide (t.page = k)) = [] := by
  induction ls with
  | nil => rfl
  | cons l ls ih =>
    have hl := h l (List.mem_cons_self l ls)
    rw [lineTextList_cons]
    simp [hl.1, hl.2, ih (fun m hm => h m (List.mem_cons_of_mem l hm))]

theorem lineTextList_append (a b : List FieldLine) :
    lineTextList (a ++ b) = lineTextList a ++ lineTextList b := by
  simp [lineTextList]

/-! ## Properties of `generatePdfFromTemplate` -/

/-- C7 fails as stated: with the page height 297, `N = 30` and 31 fields, a
data document in which a field resolves to an object with an own entry
`toString` makes `String` throw in the first field line, and no document
comes out. -/
theorem pagination_boundary_counterexample :
    (62 + 7 * (((30 : Nat) : ℚ) - 1)) + 8 ≤ a4Host.pageHeight - 20 ∧
    (∀ M : Nat, (62 + 7 * ((M : ℚ) - 1)) + 8 ≤ a4Host.pageHeight - 20 → M ≤ 30) ∧
    (sections (repeatedTemplate 31)).length = 30 + 1 ∧
    resolvePath shadowedRecord nameField.mapping nameField.defaultValue =
      .ok (.obj [(js "toString", .str (js "x"))]) ∧
    generatePdfFromTemplate a4Host (repeatedTemplate 31) shadowedRecord =
      .error .typeError := by
  refine ⟨by norm_num [a4Host], ?_, by rfl, by rfl, ?_⟩
  · intro M hM
    by_contra hc
    have h31 : (31 : ℚ) ≤ (M : ℚ) := by exact_mod_cast (not_le.mp hc)
    norm_num [a4Host] at hM
    linarith
  · exact generate_throws a4Host _ _
      ⟨nameField, by simp [sections, repeatedTemplate], shadowed_name_throws⟩

/-- C7, amended: let `N` be the largest number of lines that fit below the bands
on page 1, that is the largest `N` with `(62 + 7 * (N - 1)) + 8 ≤ pageHeight - 20`,
and let every field have a display string (`String` of its resolved value does
not throw). For a template with exactly `N + 1` fields the document is
generated and has exactly 2 pages; line `i` shows field `i`; lines `1..N` are on
page 1 at heights `62 + 7 * (i - 1)`; line `N + 1` is on page 2 at height
`marginY = 20`, and its label and value are the only texts of page 2; the title
and the subtitle are the first two texts, on page 1, and all other texts are
field lines; the only rectangle and the only rule of the document, the title
band and the divider, are on page 1. -/
theorem pagination_boundary (host : Host) (template : Template) (data : JsVal) (N : Nat)
    (hfit : (62 + 7 * ((N : ℚ) - 1)) + 8 ≤ host.pageHeight - 20)
    (hmax : ∀ M : Nat, (62 + 7 * ((M : ℚ) - 1)) + 8 ≤ host.pageHeight - 20 → M ≤ N)
    (hlen : (template.headerFields.getD [] ++ template.bodyFields.getD [] ++
      template.footerFields.getD []).length = N + 1)
    (hshow : ∀ f ∈ template.headerFields.getD [] ++ template.bodyFields.getD [] ++
      template.footerFields.getD [], ∃ s, displayValue host data f = .ok s) :
    ∃ ops, generatePdfFromTemplate host template data = .ok ops ∧
      pageCount ops = 2 ∧
      List.Forall₂
        (fun (f : Field) (l : FieldLine) =>
          l.label.str = f.keyLabel ++ js ":" ∧ displayValue host data f = .ok l.value.str)
        (template.headerFields.getD [] ++ template.bodyFields.getD [] ++
          template.footerFields.getD [])
        (fieldLines ops) ∧
      (fieldLines ops).map (fun l => (l.label.page, l.label.y)) =
        (List.range N).map (fun i : Nat => ((1 : Nat), (62 : ℚ) + 7 * (i : ℚ))) ++ [(2, marginY)] ∧
      (fieldLines ops).map (fun l => (l.value.page, l.value.y)) =
        (List.range N).map (fun i : Nat => ((1 : Nat), (62 : ℚ) + 7 * (i : ℚ))) ++ [(2, marginY)] ∧
      (texts ops).filter (fun t => decide (t.page = 2)) =
        lineTextList ((fieldLines ops).drop N) ∧
      (texts ops).take 2 =
        [⟨1, strOr template.name (js "Document"), host.pageWidth / 2, 30, some (js "center")⟩,
         ⟨1, subtitle host template, 18, 44, none⟩] ∧
      (texts ops).drop 2 = lineTextList (fieldLines ops) ∧
      shapes ops =
        [(1, PdfOp.roundedRect 18 20 (host.pageWidth - 36) 16 3 3 (js "F")),
         (1, PdfOp.line 18 52 (host.pageWidth - 18) 52)] := by
  obtain ⟨ops, hrun, ht, hl, hs, hp, -⟩ := generate_lines host template data hshow
  have htie := lines_show_fields host data (sections template)
    (flowPlaces host 1 62 (sections template).length)
    (length_flowPlaces host 1 62 _).symm hshow
  rw [← hl] at htie
  have hlen2 : (sections template).length = N + 1 := hlen
  have hfit2 : ∀ i : Nat, i < N → (62 : ℚ) + 7 * (i : ℚ) + 8 ≤ host.pageHeight - 20 := by
    intro i hi
    have hle : (i : ℚ) + 1 ≤ (N : ℚ) := by exact_mod_cast hi
    linarith
  have hover : (62 : ℚ) + 7 * (N : ℚ) + 8 > host.pageHeight - 20 := by
    by_contra hc
    have hle := hmax (N + 1) (by push_cast; linarith [not_lt.mp hc])
    omega
  obtain ⟨hplaces, hpage⟩ := flowPlaces_boundary host N 1 62 hfit2 hover
  rw [hlen2] at hl hp
  have hlenz : (sections template).length = (flowPlaces host 1 62 (N + 1)).length := by
    rw [length_flowPlaces, hlen2]
  have hlabel : (fieldLines ops).map (fun l => (l.label.page, l.label.y)) =
      (List.range N).map (fun i : Nat => ((1 : Nat), (62 : ℚ) + 7 * (i : ℚ))) ++ [(2, marginY)] := by
    rw [hl, map_zipWith_eq_right _ _ (lineTexts_label_place host data) _ _ hlenz, hplaces]
    rfl
  have hvalue : (fieldLines ops).map (fun l => (l.value.page, l.value.y)) =
      (List.range N).map (fun i : Nat => ((1 : Nat), (62 : ℚ) + 7 * (i : ℚ))) ++ [(2, marginY)] := by
    rw [hl, map_zipWith_eq_right _ _ (lineTexts_value_place host data) _ _ hlenz, hplaces]
    rfl
  have hlen_range : ((List.range N).map (fun i : Nat => ((1 : Nat), (62 : ℚ) + 7 * (i : ℚ)))).length
      = N := by simp
  -- the first N lines are on page 1
  have htake : ∀ l ∈ (fieldLines ops).take N, l.label.page ≠ 2 ∧ l.value.page ≠ 2 := by
    intro l hm
    have h1 : (l.label.page, l.label.y) ∈
        ((fieldLines ops).take N).map (fun l => (l.label.page, l.label.y)) :=
      List.mem_map_of_mem _ hm
    have h2 : (l.value.page, l.value.y) ∈
        ((fieldLines ops).take N).map (fun l => (l.value.page, l.value.y)) :=
      List.mem_map_of_mem _ hm
    rw [List.map_take, hlabel, List.take_left' hlen_range] at h1
    rw [List.map_take, hvalue, List.take_left' hlen_range] at h2
    simp only [List.mem_map, Prod.mk.injEq] at h1 h2
    obtain ⟨_, _, ha, _⟩ := h1
    obtain ⟨_, _, hb, _⟩ := h2
    omega
  -- the last line is on page 2
  have hdrop : ∀ l ∈ (fieldLines ops).drop N, l.label.page = 2 ∧ l.value.page = 2 := by
    intro l hm
    have h1 : (l.label.page, l.label.y) ∈
        ((fieldLines ops).drop N).map (fun l => (l.label.page, l.label.y)) :=
      List.mem_map_of_mem _ hm
    have h2 : (l.value.page, l.value.y) ∈
        ((fieldLines ops).drop N).map (fun l => (l.value.page, l.value.y)) :=
      List.mem_map_of_mem _ hm
    rw [List.map_drop, hlabel, List.drop_left' hlen_range] at h1
    rw [List.map_drop, hvalue, List.drop_left' hlen_range] at h2
    simp only [List.mem_singleton, Prod.mk.injEq] at h1 h2
    exact ⟨h1.1, h2.1⟩
  refine ⟨ops, hrun, ?_, htie, hlabel, hvalue, ?_, ?_, ?_, hs⟩
  · rw [hp, hpage]
  · rw [ht]
    conv_lhs => rw [← List.take_append_drop N (fieldLines ops)]
    rw [lineTextList_append]
    simp only [List.filter_cons, List.filter_append]
    rw [filter_lineTextList_none 2 _ htake, filter_lineTextList_all 2 _ hdrop]
    simp
  · rw [ht]
    rfl
  · rw [ht]
    rfl

theorem pagination_boundary_witness :
    ∃ ops, generatePdfFromTemplate a4Host (repeatedTemplate 31) aliceRecord = .ok ops ∧
      pageCount ops = 2 ∧
      List.Forall₂
        (fun (f : Field) (l : FieldLine) =>
          l.label.str = f.keyLabel ++ js ":" ∧
            displayValue a4Host aliceRecord f = .ok l.value.str)
        ((repeatedTemplate 31).headerFields.getD [] ++
          (repeatedTemplate 31).bodyFields.getD [] ++
          (repeatedTemplate 31).footerFields.getD [])
        (fieldLines ops) ∧
      (fieldLines ops).map (fun l => (l.label.page, l.label.y)) =
        (List.range 30).map (fun i : Nat => ((1 : Nat), (62 : ℚ) + 7 * (i : ℚ))) ++
          [(2, marginY)] ∧
      (fieldLines ops).map (fun l => (l.value.page, l.value.y)) =
        (List.range 30).map (fun i : Nat => ((1 : Nat), (62 : ℚ) + 7 * (i : ℚ))) ++
          [(2, marginY)] ∧
      (texts ops).filter (fun t => decide (t.page = 2)) =
        lineTextList ((fieldLines ops).drop 30) ∧
      (texts ops).take 2 =
        [⟨1, strOr (repeatedTemplate 31).name (js "Document"), a4Host.pageWidth / 2, 30,
            some (js "center")⟩,
         ⟨1, subtitle a4Host (repeatedTemplate 31), 18, 44, none⟩] ∧
      (texts ops).drop 2 = lineTextList (fieldLines ops) ∧
      shapes ops =
        [(1, PdfOp.roundedRect 18 20 (a4Host.pageWidth - 36) 16 3 3 (js "F")),
         (1, PdfOp.line 18 52 (a4Host.pageWidth - 18) 52)] :=
  pagination_boundary a4Host (repeatedTemplate 31) aliceRecord 30
    (by norm_num [a4Host])
    (by
      intro M hM
      by_contra hc
      have h31 : (31 : ℚ) ≤ (M : ℚ) := by exact_mod_cast (not_le.mp hc)
      norm_num [a4Host] at hM
      linarith)
    (by rfl)
    (by
      intro f hf
      have hf2 : f = nameField := by
        simp only [repeatedTemplate, Option.getD_none, Option.getD_some, List.nil_append,
          List.append_nil] at hf
        exact List.eq_of_mem_replicate hf
      rw [hf2]
      exact alice_shows_name)

/-- C8 fails as stated: with one field in each group and a data document in
which the body field resolves to an object with an own entry `toString`, the
header line is written, `String` throws in the body line, and no document with
the three lines comes out. -/
theorem flattening_order_counterexample :
    groupedTemplate.headerFields = some [totalField] ∧
    groupedTemplate.bodyFields = some [nameField] ∧
    groupedTemplate.footerFields = some [totalField] ∧
    displayValue a4Host shadowedRecord totalField = .ok (js "0") ∧
    displayValue a4Host shadowedRecord nameField = .error .typeError ∧
    generatePdfFromTemplate a4Host groupedTemplate shadowedRecord = .error .typeError := by
  refine ⟨rfl, rfl, rfl, rfl, rfl, ?_⟩
  exact generate_throws a4Host _ _
    ⟨nameField, by simp [sections, groupedTemplate], shadowed_name_throws⟩

/-- C8, amended: when every field has a display string (`String` of its resolved
value does not throw), the document is generated and its field lines are, in
the order in which they are written, the header fields, then the body fields,
then the footer fields (a missing group counting as empty), one line per field,
each showing the label with a colon and the display string of the resolved
value; besides the title and the subtitle no other text is drawn; and the lines
come in increasing page, then increasing height. -/
theorem flattening_order (host : Host) (template : Template) (data : JsVal)
    (hshow : ∀ f ∈ template.headerFields.getD [] ++ template.bodyFields.getD [] ++
      template.footerFields.getD [], ∃ s, displayValue host data f = .ok s) :
    ∃ ops, generatePdfFromTemplate host template data = .ok ops ∧
      List.Forall₂
        (fun (f : Field) (l : FieldLine) =>
          l.label.str = f.keyLabel ++ js ":" ∧ displayValue host data f = .ok l.value.str)
        (template.headerFields.getD [] ++ template.bodyFields.getD [] ++
          template.footerFields.getD [])
        (fieldLines ops) ∧
      (fieldLines ops).length =
        (template.headerFields.getD []).length + (template.bodyFields.getD []).length +
          (template.footerFields.getD []).length ∧
      (texts ops).length = 2 + 2 * (fieldLines ops).length ∧
      (fieldLines ops).map (fun l => (l.value.page, l.value.y)) =
        (fieldLines ops).map (fun l => (l.label.page, l.label.y)) ∧
      List.Pairwise lineBefore (fieldLines ops) := by
  obtain ⟨ops, hrun, ht, hl, -, -, -⟩ := generate_lines host template data hshow
  have hlen : (sections template).length =
      (flowPlaces host 1 62 (sections template).length).length :=
    (length_flowPlaces host 1 62 _).symm
  have htie := lines_show_fields host data (sections template) _ hlen hshow
  rw [← hl] at htie
  have hlabel : (fieldLines ops).map (fun l => (l.label.page, l.label.y)) =
      flowPlaces host 1 62 (sections template).length := by
    rw [hl]
    exact map_zipWith_eq_right _ _ (lineTexts_label_place host data) _ _ hlen
  have hvalue : (fieldLines ops).map (fun l => (l.value.page, l.value.y)) =
      flowPlaces host 1 62 (sections template).length := by
    rw [hl]
    exact map_zipWith_eq_right _ _ (lineTexts_value_place host data) _ _ hlen
  refine ⟨ops, hrun, htie, ?_, ?_, ?_, ?_⟩
  · rw [hl, List.length_zipWith, length_flowPlaces, Nat.min_self]
    simp only [sections, List.length_append]
  · rw [ht]
    simp [length_lineTextList]
    omega
  · rw [hvalue, hlabel]
  · have hp := flowPlaces_pairwise host (sections template).length 1 62
    rw [← hlabel, List.pairwise_map] at hp
    exact hp

theorem flattening_order_witness :
    ∃ ops, generatePdfFromTemplate a4Host groupedTemplate aliceRecord = .ok ops ∧
      List.Forall₂
        (fun (f : Field) (l : FieldLine) =>
          l.label.str = f.keyLabel ++ js ":" ∧
            displayValue a4Host aliceRecord f = .ok l.value.str)
        (groupedTemplate.headerFields.getD [] ++ groupedTemplate.bodyFields.getD [] ++
          groupedTemplate.footerFields.getD [])
        (fieldLines ops) ∧
      (fieldLines ops).length =
        (groupedTemplate.headerFields.getD []).length +
          (groupedTemplate.bodyFields.getD []).length +
          (groupedTemplate.footerFields.getD []).length ∧
      (texts ops).length = 2 + 2 * (fieldLines ops).length ∧
      (fieldLines ops).map (fun l => (l.value.page, l.value.y)) =
        (fieldLines ops).map (fun l => (l.label.page, l.label.y)) ∧
      List.Pairwise lineBefore (fieldLines ops) :=
  flattening_order a4Host groupedTemplate aliceRecord
    (by
      intro f hf
      simp only [groupedTemplate, Option.getD_some, List.cons_append, List.nil_append,
        List.mem_cons, List.mem_singleton, List.not_mem_nil, or_false] at hf
      rcases hf with rfl | rfl | rfl
      · exact alice_shows_total
      · exact alice_shows_name
      · exact alice_shows_total)

/-- C9 fails as stated: for a name made of three blanks the band shows the three
blanks, not `Document`, and the file is saved as three blanks followed by
`.pdf`; and for a template without a name, a data document in which a field
resolves to an object with an own entry `toString` makes `String` throw before
`doc.save`, so that no file is saved at all. -/
theorem name_fallback_counterexample :
    trim (js "   ") = [] ∧
    (∃ ops, generatePdfFromTemplate a4Host
        { name := js "   ", type := js "generic", headerFields := none, bodyFields := none,
          footerFields := none } (.obj []) = .ok ops ∧
      (texts ops).head? = some ⟨1, js "   ", a4Host.pageWidth / 2, 30, some (js "center")⟩ ∧
      js "   " ≠ js "Document" ∧
      savedAs ops = some (js "   .pdf") ∧
      js "   .pdf" ≠ js "document.pdf") ∧
    unnamedTemplate.name = js "" ∧
    generatePdfFromTemplate a4Host unnamedTemplate shadowedRecord = .error .typeError := by
  refine ⟨by decide, ?_, rfl, ?_⟩
  · obtain ⟨ops, hrun, ht, -, -, -, hsave⟩ := generate_lines a4Host
      { name := js "   ", type := js "generic", headerFields := none, bodyFields := none,
        footerFields := none } (.obj []) (by intro f hf; simp [sections] at hf)
    refine ⟨ops, hrun, ?_, by decide, ?_, by decide⟩
    · rw [ht]
      rfl
    · rw [hsave]
      rfl
  · exact generate_throws a4Host _ _
      ⟨nameField, by simp [sections, unnamedTemplate], shadowed_name_throws⟩

/-- C9, amended: when every field has a display string (`String` of its resolved
value does not throw), the document is generated; if the template name is empty
(or missing) the title band shows the literal `Document` and the file is saved
as `document.pdf`; for every other name, one made only of whitespace included,
the band shows the name itself and the file is saved under the name followed by
`.pdf`. -/
theorem name_fallback (host : Host) (template : Template) (data : JsVal)
    (hshow : ∀ f ∈ template.headerFields.getD [] ++ template.bodyFields.getD [] ++
      template.footerFields.getD [], ∃ s, displayValue host data f = .ok s) :
    ∃ ops, generatePdfFromTemplate host template data = .ok ops ∧
      (texts ops).head? = some ⟨1, if template.name = [] then js "Document" else template.name,
        host.pageWidth / 2, 30, some (js "center")⟩ ∧
      savedAs ops =
        some ((if template.name = [] then js "document" else template.name) ++ js ".pdf") := by
  obtain ⟨ops, hrun, ht, -, -, -, hsave⟩ := generate_lines host template data hshow
  refine ⟨ops, hrun, ?_, ?_⟩
  · rw [ht]
    cases h : template.name <;> simp [strOr]
  · rw [hsave]
    cases h : template.name <;> simp [strOr]

theorem name_fallback_witness :
    ∃ ops, generatePdfFromTemplate a4Host unnamedTemplate aliceRecord = .ok ops ∧
      (texts ops).head? = some ⟨1,
        if unnamedTemplate.name = [] then js "Document" else unnamedTemplate.name,
        a4Host.pageWidth / 2, 30, some (js "center")⟩ ∧
      savedAs ops =
        some ((if unnamedTemplate.name = [] then js "document" else unnamedTemplate.name) ++
          js ".pdf") :=
  name_fallback a4Host unnamedTemplate aliceRecord
    (by
      intro f hf
      simp only [unnamedTemplate, Option.getD_none, Option.getD_some, List.nil_append,
        List.append_nil, List.mem_singleton] at hf
      rw [hf]
      exact alice_shows_name)

/-- C10 fails as stated: for a data document in which the left-aligned field
resolves to an object with an own entry `toString`, the label is drawn, `String`
throws before the value is anchored, and no document with the field lines comes
out. -/
theorem alignment_anchors_counterexample :
    payslipTemplate.bodyFields = some [nameField, totalField] ∧
    nameField.align = js "left" ∧
    displayValue a4Host shadowedRecord nameField = .error .typeError ∧
    generatePdfFromTemplate a4Host payslipTemplate shadowedRecord = .error .typeError := by
  refine ⟨rfl, rfl, rfl, ?_⟩
  exact generate_throws a4Host _ _
    ⟨nameField, by simp [sections, payslipTemplate], shadowed_name_throws⟩

/-- C10, amended: when every field has a display string (`String` of its
resolved value does not throw), the document is generated and every field line
has its label, followed by a colon, written at `x = marginX = 18` without an
`align` option, whatever the alignment and the label; its value is anchored at
`pageWidth - marginX` with `align: "right"` when the alignment is `right`, at
`pageWidth / 2` with `align: "center"` when it is `center`, and at
`marginX + 40` without an `align` option otherwise (`left` included), whatever
the label and the value. -/
theorem alignment_anchors (host : Host) (template : Template) (data : JsVal)
    (hshow : ∀ f ∈ template.headerFields.getD [] ++ template.bodyFields.getD [] ++
      template.footerFields.getD [], ∃ s, displayValue host data f = .ok s) :
    ∃ ops, generatePdfFromTemplate host template data = .ok ops ∧
      List.Forall₂
        (fun (f : Field) (l : FieldLine) =>
          l.label.str = f.keyLabel ++ js ":" ∧ l.label.x = marginX ∧ l.label.x = 18 ∧
          l.label.align = none ∧
          l.value.x =
            (if f.align = js "right" then host.pageWidth - marginX
            else if f.align = js "center" then host.pageWidth / 2
            else marginX + 40) ∧
          l.value.align =
            (if f.align = js "right" then some (js "right")
            else if f.align = js "center" then some (js "center")
            else none))
        (template.headerFields.getD [] ++ template.bodyFields.getD [] ++
          template.footerFields.getD [])
        (fieldLines ops) := by
  obtain ⟨ops, hrun, -, hl, -, -, -⟩ := generate_lines host template data hshow
  refine ⟨ops, hrun, ?_⟩
  rw [hl]
  refine forall₂_zipWith _ _ (sections template) _ ?_ (length_flowPlaces host 1 62 _).symm
  intro f _ p
  exact ⟨rfl, rfl, rfl, rfl, lineTexts_anchor host data f p, lineTexts_align host data f p⟩

theorem alignment_anchors_witness :
    ∃ ops, generatePdfFromTemplate a4Host payslipTemplate aliceRecord = .ok ops ∧
      List.Forall₂
        (fun (f : Field) (l : FieldLine) =>
          l.label.str = f.keyLabel ++ js ":" ∧ l.label.x = marginX ∧ l.label.x = 18 ∧
          l.label.align = none ∧
          l.value.x =
            (if f.align = js "right" then a4Host.pageWidth - marginX
            else if f.align = js "center" then a4Host.pageWidth / 2
            else marginX + 40) ∧
          l.value.align =
            (if f.align = js "right" then some (js "right")
            else if f.align = js "center" then some (js "center")
            else none))
        (payslipTemplate.headerFields.getD [] ++ payslipTemplate.bodyFields.getD [] ++
          payslipTemplate.footerFields.getD [])
        (fieldLines ops) :=
  alignment_anchors a4Host payslipTemplate aliceRecord
    (by
      intro f hf
      simp only [payslipTemplate, Option.getD_none, Option.getD_some, List.nil_append,
        List.append_nil, List.mem_cons, List.mem_singleton, List.not_mem_nil,
        or_false] at hf
      rcases hf with rfl | rfl
      · exact alice_shows_name
      · exact alice_shows_total)

end PdfTemplate
